import Mathlib

/-!
Verification of the TradingBook trade reconciliation and performance-metrics
engine, shallowly embedded from the JavaScript source.

Sources embedded here:
* `matchAndCalculatePnL` and the `match-pnl` IPC handler
  (`public/electron.js`, lines 541-714 and 896-906);
* `getPerformanceMetrics` and `getCalendarData`
  (`src/database/Database.js`, lines 407-535);
* the trade repository operations `saveTrade` / `deleteTrade` / `getTrades`
  (`src/database/Database.js`, lines 199-405) as a state-passing model.

Modelling conventions:
* JavaScript numbers are modelled as exact rationals `ℚ`; the quantities,
  prices and commissions handled by the program are small decimals for which
  double arithmetic of the operations used here is exact in the cases the
  theorems evaluate.
* Dates are stored by the repository as local-time strings
  `YYYY-MM-DDTHH:mm:ss` (no UTC suffix, `Database.js` line 213-223).  A stored
  date is modelled as a year/month/day triple plus the time of day collapsed
  to one number; comparison of `new Date(...)` values coincides with the
  lexicographic comparison used here.
* `Array.prototype.sort` is stable, so a JS sort by a comparator equals the
  stable insertion sort `List.insertionSort` with the corresponding `≤`.
* SQLite's `ORDER BY entry_date DESC` (in `getTrades`) does not specify the
  relative order of rows with equal `entry_date`; `fetchTrades` below fixes
  one admissible order (stable on the stored row order).  Theorems about
  FIFO tie-breaking are therefore stated on the fetched list itself, which
  is exactly what the matching code receives.
* A rejected repository promise is modelled by an operation-counter failure
  schedule (`failAt`): the operation numbered `failAt` fails, which makes the
  surrounding `await` throw without mutating the store.
-/

/-- A local date (the `DATE(entry_date)` truncation of a stored timestamp). -/
structure LocalDate where
  year : Int
  month : Int
  day : Int
deriving DecidableEq, Repr

/-- A stored local timestamp: calendar day plus time-of-day (milliseconds).
`new Date(a) - new Date(b)` on two stored local timestamps compares them
lexicographically by (year, month, day, time of day). -/
structure LocalDateTime where
  year : Int
  month : Int
  day : Int
  msOfDay : Int
deriving DecidableEq, Repr

/-- Day truncation, the SQL `DATE(entry_date)`. -/
def LocalDateTime.toDate (d : LocalDateTime) : LocalDate :=
  { year := d.year, month := d.month, day := d.day }

/-- Timestamp order: `new Date(a) <= new Date(b)`. -/
def dtLe (a b : LocalDateTime) : Prop :=
  a.year < b.year ∨ (a.year = b.year ∧ (a.month < b.month ∨ (a.month = b.month ∧
    (a.day < b.day ∨ (a.day = b.day ∧ a.msOfDay ≤ b.msOfDay)))))

instance : DecidableRel dtLe := fun a b => by
  unfold dtLe; infer_instance

theorem dtLe_refl (a : LocalDateTime) : dtLe a a := by
  unfold dtLe; omega

theorem dtLe_total (a b : LocalDateTime) : dtLe a b ∨ dtLe b a := by
  unfold dtLe; omega

theorem dtLe_trans {a b c : LocalDateTime} (h1 : dtLe a b) (h2 : dtLe b c) : dtLe a c := by
  unfold dtLe at *; omega

/-- Day order: `DATE(a) <= DATE(b)`. -/
def ldLe (a b : LocalDate) : Prop :=
  a.year < b.year ∨ (a.year = b.year ∧ (a.month < b.month ∨ (a.month = b.month ∧ a.day ≤ b.day)))

instance : DecidableRel ldLe := fun a b => by
  unfold ldLe; infer_instance

/-- JavaScript `str || default` on a possibly-null string field. -/
def jsOrOptStr (o : Option String) (d : String) : String :=
  match o with
  | some s => if s = "" then d else s
  | none => d

/-- JavaScript `str || default` on a non-null string field. -/
def jsOrStr (s d : String) : String :=
  if s = "" then d else s

/-- The `Trade` record as read back from the `trades` table by `getTrades`
(`Database.js` lines 299-322): snake_case columns mapped to camelCase,
nullable columns as `Option`. -/
structure Trade where
  id : Nat
  symbol : String
  side : String
  quantity : ℚ
  entryPrice : ℚ
  exitPrice : Option ℚ
  entryDate : LocalDateTime
  exitDate : Option LocalDateTime
  pnl : Option ℚ
  commission : ℚ
  strategy : Option String
  notes : Option String
  tags : List String
  screenshots : List String
  assetType : String
  optionType : Option String
  strikePrice : Option ℚ
  expirationDate : Option LocalDateTime
deriving DecidableEq, Repr

/-- First-occurrence deduplication with an accumulator: the enumeration order
of the string keys of a JavaScript object built by insertion (`tradesBySymbol`
in `electron.js` lines 570-582). -/
def firstOccursAux {α : Type} [DecidableEq α] (l : List α) (acc : List α) : List α :=
  match l with
  | [] => acc
  | x :: xs => firstOccursAux xs (if x ∈ acc then acc else acc ++ [x])

/-- First-occurrence order of the distinct elements of `l`. -/
def firstOccurs {α : Type} [DecidableEq α] (l : List α) : List α :=
  firstOccursAux l []

theorem firstOccursAux_sub {α : Type} [DecidableEq α] :
    ∀ (l acc : List α) (x : α), x ∈ firstOccursAux l acc → x ∈ acc ∨ x ∈ l := by
  intro l
  induction l with
  | nil => intro acc x hx; exact Or.inl hx
  | cons y ys ih =>
    intro acc x hx
    rcases ih _ x hx with h | h
    · by_cases hy : y ∈ acc
      · simp [hy] at h; exact Or.inl h
      · simp [hy, List.mem_append] at h
        rcases h with h | h
        · exact Or.inl h
        · subst h; exact Or.inr (List.mem_cons_self _ _)
    · exact Or.inr (List.mem_cons_of_mem _ h)

theorem firstOccursAux_mem {α : Type} [DecidableEq α] :
    ∀ (l acc : List α) (x : α), x ∈ acc ∨ x ∈ l → x ∈ firstOccursAux l acc := by
  intro l
  induction l with
  | nil => intro acc x hx; simpa [firstOccursAux] using hx.resolve_right (by simp)
  | cons y ys ih =>
    intro acc x hx
    show x ∈ firstOccursAux ys _
    by_cases hy : y ∈ acc
    · simp only [if_pos hy]
      apply ih
      rcases hx with h | h
      · exact Or.inl h
      · rcases List.mem_cons.mp h with rfl | h
        · exact Or.inl hy
        · exact Or.inr h
    · simp only [if_neg hy]
      apply ih
      rcases hx with h | h
      · exact Or.inl (List.mem_append_left _ h)
      · rcases List.mem_cons.mp h with rfl | h
        · exact Or.inl (by simp)
        · exact Or.inr h

theorem mem_firstOccurs {α : Type} [DecidableEq α] (l : List α) (x : α) :
    x ∈ firstOccurs l ↔ x ∈ l := by
  constructor
  · intro h
    rcases firstOccursAux_sub l [] x h with h | h
    · simp at h
    · exact h
  · intro h
    exact firstOccursAux_mem l [] x (Or.inr h)

theorem firstOccursAux_nodup {α : Type} [DecidableEq α] :
    ∀ (l acc : List α), acc.Nodup → (firstOccursAux l acc).Nodup := by
  intro l
  induction l with
  | nil => intro acc h; exact h
  | cons y ys ih =>
    intro acc h
    show (firstOccursAux ys _).Nodup
    by_cases hy : y ∈ acc
    · simp only [if_pos hy]; exact ih acc h
    · simp only [if_neg hy]
      apply ih
      simpa [List.nodup_append] using ⟨h, hy⟩

theorem firstOccurs_nodup {α : Type} [DecidableEq α] (l : List α) : (firstOccurs l).Nodup :=
  firstOccursAux_nodup l [] List.nodup_nil

/-- The FIFO comparator of `electron.js` lines 597-598:
`(a, b) => new Date(a.entryDate) - new Date(b.entryDate)`. -/
def tradeDateLe (a b : Trade) : Prop := dtLe a.entryDate b.entryDate

instance : DecidableRel tradeDateLe := fun a b => by
  unfold tradeDateLe; infer_instance

instance : IsTotal Trade tradeDateLe :=
  ⟨fun a b => dtLe_total a.entryDate b.entryDate⟩

instance : IsTrans Trade tradeDateLe :=
  ⟨fun _ _ _ h1 h2 => dtLe_trans h1 h2⟩

/-- The in-place stable sort `buys.sort(...)` / `sells.sort(...)` of
`electron.js` lines 597-598. -/
def fifoSort (l : List Trade) : List Trade := List.insertionSort tradeDateLe l

/-- The BUY queue of one symbol (`electron.js` lines 571-582): unmatched
trades of that symbol whose side is exactly the string `'BUY'`, in list
order.  A side of `'LONG'` or `'SHORT'` matches neither branch of the
`if`/`else if` and is pushed into neither queue. -/
def buysFor (l : List Trade) (k : String) : List Trade :=
  l.filter (fun t => t.symbol == k && t.side == "BUY")

/-- The SELL queue of one symbol (`electron.js` lines 579-581). -/
def sellsFor (l : List Trade) (k : String) : List Trade :=
  l.filter (fun t => t.symbol == k && t.side == "SELL")

/-- The symbol keys of `tradesBySymbol` in object-key enumeration order
(first occurrence in the unmatched list; the trade symbols handled by the
program are ticker strings, not array indices). -/
def symbolKeys (l : List Trade) : List String :=
  firstOccurs (l.map (fun t => t.symbol))

/-- The matched round-trip trade built at `electron.js` lines 616-634 and
persisted by `db.saveTrade`; `newId` is the store-assigned rowid. -/
def mkCompleteTrade (b s : Trade) (newId : Nat) : Trade :=
  { id := newId
    symbol := b.symbol
    side := "BUY"
    quantity := min b.quantity s.quantity
    entryPrice := b.entryPrice
    exitPrice := some s.entryPrice
    entryDate := b.entryDate
    exitDate := some s.entryDate
    pnl := some ((s.entryPrice - b.entryPrice) * min b.quantity s.quantity
      - b.commission - s.commission)
    commission := b.commission + s.commission
    strategy := some (jsOrOptStr b.strategy "Imported")
    notes := some ("Matched trade: Buy " ++ toString b.id ++ " + Sell " ++ toString s.id)
    tags := b.tags
    screenshots := b.screenshots
    assetType := jsOrStr b.assetType "STOCK"
    optionType := b.optionType
    strikePrice := b.strikePrice
    expirationDate := b.expirationDate }

/-- The remainder BUY trade for a partially filled buy leg
(`electron.js` lines 646-671). -/
def mkBuyRemainder (b : Trade) (q : ℚ) (newId : Nat) : Trade :=
  { id := newId
    symbol := b.symbol
    side := "BUY"
    quantity := b.quantity - q
    entryPrice := b.entryPrice
    exitPrice := none
    entryDate := b.entryDate
    exitDate := none
    pnl := none
    commission := 0
    strategy := b.strategy
    notes := some ((b.notes.getD "") ++ " (Remainder after partial match)")
    tags := b.tags
    screenshots := b.screenshots
    assetType := jsOrStr b.assetType "STOCK"
    optionType := b.optionType
    strikePrice := b.strikePrice
    expirationDate := b.expirationDate }

/-- The remainder SELL trade for a partially filled sell leg
(`electron.js` lines 673-698). -/
def mkSellRemainder (s : Trade) (q : ℚ) (newId : Nat) : Trade :=
  { id := newId
    symbol := s.symbol
    side := "SELL"
    quantity := s.quantity - q
    entryPrice := s.entryPrice
    exitPrice := none
    entryDate := s.entryDate
    exitDate := none
    pnl := none
    commission := 0
    strategy := s.strategy
    notes := some ((s.notes.getD "") ++ " (Remainder after partial match)")
    tags := s.tags
    screenshots := s.screenshots
    assetType := jsOrStr s.assetType "STOCK"
    optionType := s.optionType
    strikePrice := s.strikePrice
    expirationDate := s.expirationDate }

/-- The symbol scan of `electron.js` lines 587-703: for each symbol key in
turn, sort its two queues by entry date and take the heads; if
`min(buy.quantity, sell.quantity) > 0` this pair is matched (`break` after
one match per iteration), otherwise the scan moves to the next symbol. -/
def findPairIn (l : List Trade) : List String → Option (Trade × Trade)
  | [] => none
  | k :: ks =>
    match fifoSort (buysFor l k), fifoSort (sellsFor l k) with
    | b :: _, s :: _ =>
      if 0 < min b.quantity s.quantity then some (b, s) else findPairIn l ks
    | _, _ => findPairIn l ks

/-- The single buy/sell pair selected by one iteration of the matching loop
from the fetched unmatched list. -/
def findPair (l : List Trade) : Option (Trade × Trade) :=
  findPairIn l (symbolKeys l)

/-- The trade repository state: the `trades` table in rowid order, the next
`AUTOINCREMENT` id, and the failure schedule of the external store (`failAt`
is the index of the repository operation whose promise rejects; `opCount`
counts operations already performed). -/
structure DBState where
  rows : List Trade
  nextId : Nat
  failAt : Option Nat
  opCount : Nat
deriving DecidableEq, Repr

/-- Whether the next repository operation succeeds. -/
def DBState.opOk (db : DBState) : Bool := db.failAt != some db.opCount

/-- A successful `db.saveTrade` (`Database.js` lines 200-250): the row is
appended with the store-assigned rowid. -/
def DBState.commitSave (db : DBState) (mk : Nat → Trade) : DBState :=
  { db with
    rows := db.rows ++ [mk db.nextId]
    nextId := db.nextId + 1
    opCount := db.opCount + 1 }

/-- A successful `db.deleteTrade` (`Database.js` lines 383-393):
`DELETE FROM trades WHERE id = ?`. -/
def DBState.commitDelete (db : DBState) (i : Nat) : DBState :=
  { db with
    rows := db.rows.filter (fun t => t.id != i)
    opCount := db.opCount + 1 }

/-- `db.getTrades()` (`Database.js` lines 252-330): all rows,
`ORDER BY entry_date DESC`.  SQLite leaves the relative order of rows with
equal `entry_date` unspecified; this model fixes the stable descending sort
of the stored row order as one admissible result. -/
def fetchTrades (db : DBState) : List Trade :=
  List.insertionSort (fun a b => dtLe b.entryDate a.entryDate) db.rows

/-- The sell-leg partial-fill step (`electron.js` lines 673-698): insert a
remainder SELL trade when `sell.quantity > matchedQuantity`. -/
def applySellRemainder (db : DBState) (s : Trade) (q : ℚ) : DBState × Bool :=
  if q < s.quantity then
    if !db.opOk then (db, false)
    else (db.commitSave (fun nid => mkSellRemainder s q nid), true)
  else (db, true)

/-- The buy-leg partial-fill step (`electron.js` lines 646-671) followed by
the sell-leg step. -/
def applyRemainders (db : DBState) (b s : Trade) : DBState × Bool :=
  let q := min b.quantity s.quantity
  if q < b.quantity then
    if !db.opOk then (db, false)
    else applySellRemainder (db.commitSave (fun nid => mkBuyRemainder b q nid)) s q
  else applySellRemainder db s q

/-- The persistence sequence of one match (`electron.js` lines 636-698):
save the matched trade, delete the original buy, delete the original sell,
then insert the remainder trades.  A rejected promise makes the enclosing
`await` throw, so the remaining operations are skipped and the operations
already committed stay committed. -/
def applyMatch (db : DBState) (b s : Trade) : DBState × Bool :=
  if !db.opOk then (db, false)
  else
    let db1 := db.commitSave (fun nid => mkCompleteTrade b s nid)
    if !db1.opOk then (db1, false)
    else
      let db2 := db1.commitDelete b.id
      if !db2.opOk then (db2, false)
      else applyRemainders (db2.commitDelete s.id) b s

/-- One iteration of the `while` loop of `matchAndCalculatePnL`
(`electron.js` lines 550-704): fetch, keep the trades with no P&L, find the
first matchable FIFO pair, apply it.  Result flag: `some true` — a match was
applied (`hasMatches = true`); `some false` — no pair found, the loop ends;
`none` — a repository operation threw. -/
def matchStep (db : DBState) : DBState × Option Bool :=
  let unmatched := (fetchTrades db).filter (fun t => t.pnl.isNone)
  if unmatched.isEmpty then (db, some false)
  else
    match findPair unmatched with
    | none => (db, some false)
    | some (b, s) =>
      let r := applyMatch db b s
      if r.2 then (r.1, some true) else (r.1, none)

/-- The bounded matching loop (`maxIterations = 50`).  The boolean records
whether a repository error aborted the run (the `catch` at `electron.js`
lines 711-714 is outside the loop, so an error ends the whole run, not just
one iteration). -/
def matchLoop : Nat → DBState → DBState × Bool
  | 0, db => (db, false)
  | fuel + 1, db =>
    match matchStep db with
    | (db', some true) => matchLoop fuel db'
    | (db', some false) => (db', false)
    | (db', none) => (db', true)

/-- `matchAndCalculatePnL` (`electron.js` lines 542-714): runs the loop and
swallows any error in its own `try`/`catch` (the `catch` only logs). -/
def matchAndCalculatePnL (db : DBState) : DBState :=
  (matchLoop 50 db).1

/-- The `'match-pnl'` IPC handler (`electron.js` lines 897-906): awaits
`matchAndCalculatePnL` — which never rejects, since it catches internally —
and reports `success: true`. -/
def matchPnlResult (db : DBState) : DBState × Bool :=
  (matchAndCalculatePnL db, true)

/-- Well-formedness of a repository state: rowids are distinct and below the
next `AUTOINCREMENT` value.  Every state reachable through the store's
`INSERT`/`DELETE` interface satisfies this. -/
def DBState.WF (db : DBState) : Prop :=
  (db.rows.map (fun t => t.id)).Nodup ∧ ∀ t ∈ db.rows, t.id < db.nextId

/-- `pnl` read as a number, SQL `NULL` counting as 0 where the query says so. -/
def pnlV (t : Trade) : ℚ := t.pnl.getD 0

/-- The date-range argument of `getPerformanceMetrics`; the SQL compares at
day granularity (`DATE(entry_date) >= DATE(?)`), so a bound is a day. -/
structure DateRange where
  startDate : Option LocalDate
  endDate : Option LocalDate
deriving DecidableEq, Repr

/-- The date filter of `getPerformanceMetrics` (`Database.js` lines 426-441):
each bound applies only when present. -/
def inRangeB (r : DateRange) (t : Trade) : Bool :=
  (match r.startDate with
   | none => true
   | some d => decide (ldLe d t.entryDate.toDate)) &&
  (match r.endDate with
   | none => true
   | some d => decide (ldLe t.entryDate.toDate d))

/-- The rows feeding the aggregate query: `WHERE pnl IS NOT NULL` plus the
date bounds. -/
def metricRows (rows : List Trade) (r : DateRange) : List Trade :=
  rows.filter (fun t => t.pnl.isSome && inRangeB r t)

/-- The projection selected by the top-winner/top-loser queries
(`Database.js` lines 464-482): symbol, quantity, entry_price, exit_price,
pnl, entry_date, exit_date. -/
structure TradeSummary where
  symbol : String
  quantity : ℚ
  entryPrice : ℚ
  exitPrice : Option ℚ
  pnl : ℚ
  entryDate : LocalDateTime
  exitDate : Option LocalDateTime
deriving DecidableEq, Repr

def projSummary (t : Trade) : TradeSummary :=
  { symbol := t.symbol
    quantity := t.quantity
    entryPrice := t.entryPrice
    exitPrice := t.exitPrice
    pnl := pnlV t
    entryDate := t.entryDate
    exitDate := t.exitDate }

/-- `ORDER BY pnl DESC` as a total preorder on trades. -/
def pnlDescR (a b : Trade) : Prop := pnlV b ≤ pnlV a

instance : DecidableRel pnlDescR := fun a b => by
  unfold pnlDescR; infer_instance

instance : IsTotal Trade pnlDescR :=
  ⟨fun a b => le_total (pnlV b) (pnlV a)⟩

instance : IsTrans Trade pnlDescR :=
  ⟨fun _ _ _ h1 h2 => le_trans h2 h1⟩

/-- `ORDER BY pnl ASC` as a total preorder on trades. -/
def pnlAscR (a b : Trade) : Prop := pnlV a ≤ pnlV b

instance : DecidableRel pnlAscR := fun a b => by
  unfold pnlAscR; infer_instance

instance : IsTotal Trade pnlAscR :=
  ⟨fun a b => le_total (pnlV a) (pnlV b)⟩

instance : IsTrans Trade pnlAscR :=
  ⟨fun _ _ _ h1 h2 => le_trans h1 h2⟩

/-- Rows of the top-winners query: `pnl IS NOT NULL AND pnl > 0` plus the
same date bounds (`Database.js` lines 464-472). -/
def winnerRows (rows : List Trade) (r : DateRange) : List Trade :=
  rows.filter (fun t => t.pnl.isSome && decide (0 < pnlV t) && inRangeB r t)

/-- Rows of the top-losers query: `pnl IS NOT NULL AND pnl < 0`
(`Database.js` lines 474-482). -/
def loserRows (rows : List Trade) (r : DateRange) : List Trade :=
  rows.filter (fun t => t.pnl.isSome && decide (pnlV t < 0) && inRangeB r t)

/-- `ORDER BY pnl DESC LIMIT 10` with the selected projection.  SQLite does
not specify the order of equal-`pnl` rows; the stable sort is one admissible
result, and no theorem below depends on the tie order. -/
def topWinnersList (rows : List Trade) (r : DateRange) : List TradeSummary :=
  ((List.insertionSort pnlDescR (winnerRows rows r)).take 10).map projSummary

/-- `ORDER BY pnl ASC LIMIT 10` with the selected projection. -/
def topLosersList (rows : List Trade) (r : DateRange) : List TradeSummary :=
  ((List.insertionSort pnlAscR (loserRows rows r)).take 10).map projSummary

/-- The result shape of `getPerformanceMetrics` (`Database.js` lines 446-460). -/
structure PerfMetrics where
  totalTrades : Nat
  winningTrades : Nat
  losingTrades : Nat
  winRate : ℚ
  totalPnL : ℚ
  averageWin : ℚ
  averageLoss : ℚ
  profitFactor : ℚ
  largestWin : ℚ
  largestLoss : ℚ
  sharpeRatio : ℚ
  maxDrawdown : ℚ
  topWinners : List TradeSummary
  topLosers : List TradeSummary
deriving DecidableEq, Repr

/-- `getPerformanceMetrics` (`Database.js` lines 408-498).  SQL `AVG` over an
empty set is `NULL`, modelled as `none`; the JavaScript `|| 0` defaults carry
a `NULL` aggregate to 0 (on a non-`NULL` number `x`, `x || 0` is `x` when
`x ≠ 0` and `0 = x` when `x = 0`, so it is the identity there).
`winRate` is `row.total_trades ? winning/total : 0`; `profitFactor` is
`(row.avg_loss && row.avg_loss < 0) ? Math.abs(avg_win/avg_loss) : 0`, where
the truthiness test `row.avg_loss` excludes both `NULL` and 0. -/
def getPerformanceMetrics (rows : List Trade) (r : DateRange) : PerfMetrics :=
  let pnls := (metricRows rows r).map pnlV
  let wins := pnls.filter (fun p => decide (0 < p))
  let losses := pnls.filter (fun p => decide (p < 0))
  let avgWin : Option ℚ := if wins.isEmpty then none else some (wins.sum / wins.length)
  let avgLoss : Option ℚ := if losses.isEmpty then none else some (losses.sum / losses.length)
  { totalTrades := pnls.length
    winningTrades := wins.length
    losingTrades := losses.length
    winRate := if pnls.length = 0 then 0 else (wins.length : ℚ) / (pnls.length : ℚ)
    totalPnL := pnls.sum
    averageWin := avgWin.getD 0
    averageLoss := avgLoss.getD 0
    profitFactor :=
      match avgLoss with
      | some al => if al ≠ 0 ∧ al < 0 then |avgWin.getD 0 / al| else 0
      | none => 0
    largestWin := pnls.max?.getD 0
    largestLoss := pnls.min?.getD 0
    sharpeRatio := 0
    maxDrawdown := 0
    topWinners := topWinnersList rows r
    topLosers := topLosersList rows r }

/-- One row of the calendar query result (`Database.js` lines 522-528). -/
structure CalendarDay where
  date : LocalDate
  pnl : ℚ
  tradeCount : Nat
  winRate : ℚ
deriving DecidableEq, Repr

/-- The month filter of `getCalendarData` (`Database.js` lines 510-511,
517-519): `strftime('%m', entry_date) = zeroPad(month + 1)` and
`strftime('%Y', entry_date) = year` — the handler's `month` argument is
0-indexed.  On the stored local-time strings this is numeric equality of the
month and year components. -/
def monthTrades (rows : List Trade) (month : Nat) (year : Int) : List Trade :=
  rows.filter (fun t => t.entryDate.month == (month : Int) + 1 && t.entryDate.year == year)

/-- The distinct `DATE(entry_date)` group keys, `ORDER BY date` (ascending;
group-key tie order does not arise since keys are distinct). -/
def calendarDays (l : List Trade) : List LocalDate :=
  List.insertionSort ldLe (firstOccurs (l.map (fun t => t.entryDate.toDate)))

/-- One `GROUP BY DATE(entry_date)` group (`Database.js` lines 503-528):
`SUM(CASE WHEN pnl IS NOT NULL THEN pnl ELSE 0 END)`, `COUNT(*)`,
`SUM(CASE WHEN pnl > 0 THEN 1 ELSE 0 END)` (a `NULL` pnl fails `pnl > 0`),
and `winRate = row.trade_count ? wins / trade_count : 0`. -/
def dayAgg (l : List Trade) (d : LocalDate) : CalendarDay :=
  let dts := l.filter (fun t => t.entryDate.toDate == d)
  { date := d
    pnl := (dts.map pnlV).sum
    tradeCount := dts.length
    winRate :=
      if dts.length = 0 then 0
      else ((dts.filter (fun t => decide (0 < pnlV t))).length : ℚ) / (dts.length : ℚ) }

/-- `getCalendarData` (`Database.js` lines 500-535). -/
def getCalendarData (rows : List Trade) (month : Nat) (year : Int) : List CalendarDay :=
  (calendarDays (monthTrades rows month year)).map (dayAgg (monthTrades rows month year))

/-- Per-trade contribution to a symbol's net open position: an unmatched BUY
counts its quantity, an unmatched SELL counts the negation, anything else
(other symbol, P&L already set, LONG/SHORT side) counts 0. -/
def contrib (sym : String) (t : Trade) : ℚ :=
  if t.pnl.isNone ∧ t.symbol = sym then
    (if t.side = "BUY" then t.quantity
     else if t.side = "SELL" then -t.quantity
     else 0)
  else 0

/-- Net open position of a symbol: BUY-side quantities minus SELL-side
quantities over the unmatched trades in the store. -/
def netPosition (rows : List Trade) (sym : String) : ℚ :=
  (rows.map (contrib sym)).sum

theorem insertionSort_head_stable {α : Type} (r : α → α → Prop) [DecidableRel r] :
    ∀ (l : List α) (x : α) (xs : List α), List.insertionSort r l = x :: xs →
      ∃ pre post, l = pre ++ x :: post ∧ ∀ z ∈ pre, ¬ r z x := by
  intro l
  induction l with
  | nil => intro x xs h; simp at h
  | cons a l' ih =>
    intro x xs h
    rw [List.insertionSort] at h
    cases hs : List.insertionSort r l' with
    | nil =>
      rw [hs] at h
      simp only [List.orderedInsert] at h
      refine ⟨[], l', ?_, by simp⟩
      simp [(List.cons.injEq _ _ _ _).mp h |>.1]
    | cons y ys =>
      rw [hs] at h
      by_cases hr : r a y
      · rw [List.orderedInsert, if_pos hr] at h
        have hax : a = x := ((List.cons.injEq _ _ _ _).mp h).1
        exact ⟨[], l', by simp [hax], by simp⟩
      · rw [List.orderedInsert, if_neg hr] at h
        have hyx : y = x := ((List.cons.injEq _ _ _ _).mp h).1
        subst hyx
        obtain ⟨pre', post', hl, hpre⟩ := ih y ys hs
        refine ⟨a :: pre', post', by simp [hl], ?_⟩
        intro z hz
        rcases List.mem_cons.mp hz with rfl | hz
        · exact hr
        · exact hpre z hz

theorem mem_of_insertionSort_eq {α : Type} {r : α → α → Prop} [DecidableRel r]
    {l res : List α} (h : List.insertionSort r l = res) {x : α} (hx : x ∈ res) : x ∈ l := by
  subst h
  exact (List.perm_insertionSort r l).mem_iff.mp hx

theorem mem_buysFor {l : List Trade} {k : String} {t : Trade} :
    t ∈ buysFor l k ↔ t ∈ l ∧ t.symbol = k ∧ t.side = "BUY" := by
  simp [buysFor, List.mem_filter, and_assoc]

theorem mem_sellsFor {l : List Trade} {k : String} {t : Trade} :
    t ∈ sellsFor l k ↔ t ∈ l ∧ t.symbol = k ∧ t.side = "SELL" := by
  simp [sellsFor, List.mem_filter, and_assoc]

theorem findPairIn_spec {l : List Trade} {b s : Trade} :
    ∀ ks, findPairIn l ks = some (b, s) →
      ∃ k bt st, fifoSort (buysFor l k) = b :: bt ∧ fifoSort (sellsFor l k) = s :: st ∧
        0 < min b.quantity s.quantity := by
  intro ks
  induction ks with
  | nil => intro h; simp [findPairIn] at h
  | cons k ks ih =>
    intro h
    rw [findPairIn] at h
    cases hb : fifoSort (buysFor l k) with
    | nil =>
      rw [hb] at h
      exact ih h
    | cons b0 bt =>
      cases hs : fifoSort (sellsFor l k) with
      | nil =>
        rw [hb, hs] at h
        exact ih h
      | cons s0 st =>
        rw [hb, hs] at h
        dsimp only at h
        by_cases hq : 0 < min b0.quantity s0.quantity
        · rw [if_pos hq] at h
          have hbs : b0 = b ∧ s0 = s := by
            have := (Option.some.injEq _ _).mp h
            exact ⟨congrArg Prod.fst this, congrArg Prod.snd this⟩
          obtain ⟨rfl, rfl⟩ := hbs
          exact ⟨k, bt, st, hb, hs, hq⟩
        · rw [if_neg hq] at h
          exact ih h

theorem fifoSort_sorted (l : List Trade) : List.Sorted tradeDateLe (fifoSort l) :=
  List.sorted_insertionSort tradeDateLe l

/-- Everything the matching scan guarantees about the pair it selects: both
legs come from the unmatched list, sides are literally `BUY` / `SELL`, the
symbols agree, both quantities are positive, and each leg is
earliest-by-entry-date among its symbol's queue. -/
theorem findPair_facts {l : List Trade} {b s : Trade} (h : findPair l = some (b, s)) :
    b ∈ l ∧ s ∈ l ∧ b.side = "BUY" ∧ s.side = "SELL" ∧ s.symbol = b.symbol ∧
      0 < b.quantity ∧ 0 < s.quantity ∧
      (∀ b' ∈ l, b'.side = "BUY" → b'.symbol = b.symbol → tradeDateLe b b') ∧
      (∀ s' ∈ l, s'.side = "SELL" → s'.symbol = s.symbol → tradeDateLe s s') := by
  obtain ⟨k, bt, st, hb, hs, hq⟩ := findPairIn_spec _ h
  have hbmem : b ∈ buysFor l k := mem_of_insertionSort_eq hb (by simp)
  have hsmem : s ∈ sellsFor l k := mem_of_insertionSort_eq hs (by simp)
  obtain ⟨hbl, hbsym, hbside⟩ := mem_buysFor.mp hbmem
  obtain ⟨hsl, hssym, hsside⟩ := mem_sellsFor.mp hsmem
  have hsortb : List.Sorted tradeDateLe (b :: bt) := hb ▸ fifoSort_sorted (buysFor l k)
  have hsorts : List.Sorted tradeDateLe (s :: st) := hs ▸ fifoSort_sorted (sellsFor l k)
  refine ⟨hbl, hsl, hbside, hsside, hssym.trans hbsym.symm, (lt_min_iff.mp hq).1,
    (lt_min_iff.mp hq).2, ?_, ?_⟩
  · intro b' hb'l hb'side hb'sym
    have hb'mem : b' ∈ buysFor l k := mem_buysFor.mpr ⟨hb'l, hb'sym.trans hbsym, hb'side⟩
    have : b' ∈ b :: bt := hb ▸ (List.perm_insertionSort tradeDateLe (buysFor l k)).symm.subset hb'mem
    rcases List.mem_cons.mp this with rfl | hmem
    · exact dtLe_refl _
    · exact List.rel_of_sorted_cons hsortb b' hmem
  · intro s' hs'l hs'side hs'sym
    have hs'mem : s' ∈ sellsFor l k := mem_sellsFor.mpr ⟨hs'l, hs'sym.trans hssym, hs'side⟩
    have : s' ∈ s :: st := hs ▸ (List.perm_insertionSort tradeDateLe (sellsFor l k)).symm.subset hs'mem
    rcases List.mem_cons.mp this with rfl | hmem
    · exact dtLe_refl _
    · exact List.rel_of_sorted_cons hsorts s' hmem

theorem DBState.WF.id_inj {db : DBState} (h : db.WF) {t u : Trade}
    (ht : t ∈ db.rows) (hu : u ∈ db.rows) (hid : t.id = u.id) : t = u :=
  List.inj_on_of_nodup_map h.1 ht hu hid

theorem DBState.WF.commitSave {db : DBState} (h : db.WF) {mk : Nat → Trade}
    (hmk : (mk db.nextId).id = db.nextId) : (db.commitSave mk).WF := by
  constructor
  · rw [DBState.commitSave]
    simp only [List.map_append, List.map_cons, List.map_nil]
    rw [List.nodup_append]
    refine ⟨h.1, by simp, ?_⟩
    intro i hi
    simp only [List.mem_map] at hi
    obtain ⟨t, htmem, rfl⟩ := hi
    simp only [List.mem_singleton, hmk]
    intro hcontra
    exact absurd (hcontra ▸ h.2 t htmem) (lt_irrefl _)
  · intro t ht
    rw [DBState.commitSave] at ht
    simp only [List.mem_append, List.mem_singleton] at ht
    rcases ht with ht | rfl
    · exact Nat.lt_succ_of_lt (h.2 t ht)
    · have hn : (db.commitSave mk).nextId = db.nextId + 1 := rfl
      rw [hn, hmk]
      exact Nat.lt_succ_self _

theorem DBState.WF.commitDelete {db : DBState} (h : db.WF) (i : Nat) :
    (db.commitDelete i).WF := by
  constructor
  · exact ((List.filter_sublist db.rows).map (fun t => t.id)).nodup h.1
  · intro t ht
    exact h.2 t (List.mem_of_mem_filter ht)

theorem mem_commitSave {db : DBState} {mk : Nat → Trade} {t : Trade} (ht : t ∈ db.rows) :
    t ∈ (db.commitSave mk).rows :=
  List.mem_append_left _ ht

theorem mem_commitDelete {db : DBState} {i : Nat} {t : Trade} (ht : t ∈ db.rows)
    (hid : t.id ≠ i) : t ∈ (db.commitDelete i).rows := by
  rw [DBState.commitDelete]
  simp only [List.mem_filter, bne_iff_ne]
  exact ⟨ht, hid⟩

theorem sum_filter_ne_id {f : Trade → ℚ} {b : Trade} :
    ∀ {rows : List Trade}, (rows.map (fun t => t.id)).Nodup → b ∈ rows →
      (((rows.filter (fun t => t.id != b.id)).map f).sum : ℚ) = (rows.map f).sum - f b := by
  intro rows
  induction rows with
  | nil => intro _ hb; simp at hb
  | cons r rest ih =>
    intro hnd hb
    have hnd' : (rest.map (fun t => t.id)).Nodup := (List.nodup_cons.mp hnd).2
    have hrid : r.id ∉ rest.map (fun t => t.id) := (List.nodup_cons.mp hnd).1
    by_cases hid : r.id = b.id
    · have hrb : r = b := by
        rcases List.mem_cons.mp hb with rfl | hbmem
        · rfl
        · exact absurd (List.mem_map.mpr ⟨b, hbmem, hid.symm⟩) hrid
      subst hrb
      have hrest : rest.filter (fun t => t.id != r.id) = rest := by
        apply List.filter_eq_self.mpr
        intro u hu
        simp only [bne_iff_ne]
        intro hcontra
        exact absurd (List.mem_map.mpr ⟨u, hu, hcontra⟩) hrid
      simp [List.filter_cons, hrest, add_comm]
    · have hbmem : b ∈ rest := by
        rcases List.mem_cons.mp hb with rfl | hbmem
        · exact absurd rfl hid
        · exact hbmem
      have hkeep : (r.id != b.id) = true := bne_iff_ne.mpr hid
      simp only [List.filter_cons, hkeep, if_pos trivial, List.map_cons, List.sum_cons,
        ih hnd' hbmem]
      ring

/-- The rows produced by a fully successful match persistence sequence, as a
function of the prior rows and the store's next rowid. -/
def afterMatchRows (rows : List Trade) (b s : Trade) (nid : Nat) : List Trade :=
  (((rows ++ [mkCompleteTrade b s nid]).filter (fun t => t.id != b.id)).filter
      (fun t => t.id != s.id))
    ++ (if min b.quantity s.quantity < b.quantity then
          [mkBuyRemainder b (min b.quantity s.quantity) (nid + 1)] else [])
    ++ (if min b.quantity s.quantity < s.quantity then
          [mkSellRemainder s (min b.quantity s.quantity)
            (if min b.quantity s.quantity < b.quantity then nid + 2 else nid + 1)] else [])

theorem commitSave_failAt (db : DBState) (mk : Nat → Trade) :
    (db.commitSave mk).failAt = db.failAt := rfl

theorem commitDelete_failAt (db : DBState) (i : Nat) :
    (db.commitDelete i).failAt = db.failAt := rfl

theorem opOk_of_none {d : DBState} (h : d.failAt = none) : d.opOk = true := by
  rw [DBState.opOk, h]
  rfl

theorem mem_applySellRemainder {db : DBState} {sr : Trade} {q : ℚ} {t : Trade}
    (ht : t ∈ db.rows) : t ∈ (applySellRemainder db sr q).1.rows := by
  rw [applySellRemainder]
  split_ifs with h1 h2
  · exact ht
  · exact mem_commitSave ht
  · exact ht

theorem mem_applyRemainders {db : DBState} {b s : Trade} {t : Trade}
    (ht : t ∈ db.rows) : t ∈ (applyRemainders db b s).1.rows := by
  rw [applyRemainders]
  split_ifs with h1 h2
  · exact ht
  · exact mem_applySellRemainder (mem_commitSave ht)
  · exact mem_applySellRemainder ht

/-- Whatever prefix of the persistence sequence succeeds, a stored trade that
is neither of the two matched legs is still stored afterwards. -/
theorem applyMatch_preserves {db : DBState} {b s t : Trade} (hwf : db.WF)
    (hb : b ∈ db.rows) (hs : s ∈ db.rows) (htb : t ≠ b) (hts : t ≠ s)
    (ht : t ∈ db.rows) : t ∈ (applyMatch db b s).1.rows := by
  have htidb : t.id ≠ b.id := fun hid => htb (hwf.id_inj ht hb hid)
  have htids : t.id ≠ s.id := fun hid => hts (hwf.id_inj ht hs hid)
  simp only [applyMatch]
  split_ifs with h0 h1 h2
  · exact ht
  · exact mem_commitSave ht
  · exact mem_commitDelete (mem_commitSave ht) htidb
  · exact mem_applyRemainders
      (mem_commitDelete (mem_commitDelete (mem_commitSave ht) htidb) htids)

theorem applySellRemainder_wf {db : DBState} {sr : Trade} {q : ℚ} (hwf : db.WF) :
    (applySellRemainder db sr q).1.WF := by
  rw [applySellRemainder]
  split_ifs with h1 h2
  · exact hwf
  · exact hwf.commitSave rfl
  · exact hwf

theorem applyRemainders_wf {db : DBState} {b s : Trade} (hwf : db.WF) :
    (applyRemainders db b s).1.WF := by
  rw [applyRemainders]
  split_ifs with h1 h2
  · exact hwf
  · exact applySellRemainder_wf (hwf.commitSave rfl)
  · exact applySellRemainder_wf hwf

theorem applyMatch_wf {db : DBState} {b s : Trade} (hwf : db.WF) :
    (applyMatch db b s).1.WF := by
  simp only [applyMatch]
  split_ifs with h0 h1 h2
  · exact hwf
  · exact hwf.commitSave rfl
  · exact (hwf.commitSave rfl).commitDelete _
  · exact applyRemainders_wf (((hwf.commitSave rfl).commitDelete _).commitDelete _)

theorem none_bne_some {α : Type} [DecidableEq α] (x : α) :
    ((none : Option α) != some x) = true := rfl

/-- With no repository failure scheduled, the whole persistence sequence of a
match succeeds and produces exactly the rows of `afterMatchRows`. -/
theorem applyMatch_ok {db : DBState} {b s : Trade} (h : db.failAt = none) :
    (applyMatch db b s).1.rows = afterMatchRows db.rows b s db.nextId ∧
      (applyMatch db b s).2 = true ∧ (applyMatch db b s).1.failAt = none := by
  obtain ⟨rows, nid, fa, oc⟩ := db
  have hfa : fa = none := h
  subst hfa
  simp only [applyMatch, applyRemainders, applySellRemainder, DBState.commitSave,
    DBState.commitDelete, DBState.opOk, none_bne_some, Bool.not_true,
    Bool.false_eq_true, if_false, afterMatchRows]
  split_ifs <;> simp [List.append_assoc]

/-- The unmatched working list of one loop iteration. -/
def unmatchedOf (db : DBState) : List Trade :=
  (fetchTrades db).filter (fun t => t.pnl.isNone)

theorem unmatched_mem {db : DBState} {t : Trade} (h : t ∈ unmatchedOf db) :
    t ∈ db.rows ∧ t.pnl = none := by
  rw [unmatchedOf, fetchTrades] at h
  simp only [List.mem_filter] at h
  exact ⟨(List.perm_insertionSort _ db.rows).subset h.1,
    Option.isNone_iff_eq_none.mp h.2⟩

theorem matchStep_cases (db : DBState) :
    (matchStep db).1 = db ∨
      ∃ b s, findPair (unmatchedOf db) = some (b, s) ∧
        (matchStep db).1 = (applyMatch db b s).1 ∧
        ((applyMatch db b s).2 = true → (matchStep db).2 = some true) := by
  rw [matchStep]
  dsimp only
  by_cases he : ((fetchTrades db).filter (fun t => t.pnl.isNone)).isEmpty
  · rw [if_pos he]
    exact Or.inl rfl
  · rw [if_neg he]
    rcases hfp : findPair ((fetchTrades db).filter (fun t => t.pnl.isNone)) with _ | p
    · exact Or.inl rfl
    · rcases p with ⟨b, s⟩
      refine Or.inr ⟨b, s, hfp, ?_, ?_⟩
      · by_cases hr : (applyMatch db b s).2
        · simp [hr]
        · simp [hr]
      · intro hr
        simp [hr]

theorem matchStep_wf {db : DBState} (hwf : db.WF) : (matchStep db).1.WF := by
  rcases matchStep_cases db with h | ⟨b, s, _, h, _⟩
  · rw [h]; exact hwf
  · rw [h]; exact applyMatch_wf hwf

/-- Invariant preservation through the bounded matching loop. -/
theorem matchLoop_inv (P : DBState → Prop) (hP : ∀ d, P d → P (matchStep d).1) :
    ∀ (fuel : Nat) (db : DBState), P db → P (matchLoop fuel db).1 := by
  intro fuel
  induction fuel with
  | zero => intro db h; exact h
  | succ n ih =>
    intro db h
    rw [matchLoop]
    rcases hms : matchStep db with ⟨db', r⟩
    have hd : P db' := by
      have hh := hP db h
      rw [hms] at hh
      exact hh
    rcases r with _ | bfl
    · exact hd
    · cases bfl
      · exact hd
      · exact ih db' hd

/-- A stored trade that is not one of the two legs the iteration matches is
untouched by that iteration. -/
theorem matchStep_frame {db : DBState} {t : Trade} (hwf : db.WF) (ht : t ∈ db.rows)
    (hcond : t.pnl.isSome ∨ (t.side ≠ "BUY" ∧ t.side ≠ "SELL")) :
    t ∈ (matchStep db).1.rows := by
  rcases matchStep_cases db with h | ⟨b, s, hfp, h, _⟩
  · rw [h]; exact ht
  · rw [h]
    obtain ⟨hbl, hsl, hbside, hsside, _, _, _, _, _⟩ := findPair_facts hfp
    obtain ⟨hbrows, hbpnl⟩ := unmatched_mem hbl
    obtain ⟨hsrows, hspnl⟩ := unmatched_mem hsl
    have htb : t ≠ b := by
      intro hEq
      rcases hcond with hp | ⟨hsd, _⟩
      · rw [hEq, hbpnl] at hp; simp at hp
      · exact hsd (hEq ▸ hbside)
    have hts : t ≠ s := by
      intro hEq
      rcases hcond with hp | ⟨_, hsd⟩
      · rw [hEq, hspnl] at hp; simp at hp
      · exact hsd (hEq ▸ hsside)
    exact applyMatch_preserves hwf hbrows hsrows htb hts ht

theorem sum_map_if_singleton (c : Prop) [Decidable c] (x : Trade) (f : Trade → ℚ) :
    (((if c then [x] else []).map f).sum) = if c then f x else 0 := by
  split_ifs <;> simp

theorem contrib_mkCompleteTrade (sym : String) (b s : Trade) (nid : Nat) :
    contrib sym (mkCompleteTrade b s nid) = 0 := by
  simp [contrib, mkCompleteTrade]

theorem contrib_buy {sym : String} {b : Trade} (hbp : b.pnl = none)
    (hbside : b.side = "BUY") :
    contrib sym b = if b.symbol = sym then b.quantity else 0 := by
  simp [contrib, hbp, hbside]

theorem contrib_sell {sym : String} {s : Trade} (hsp : s.pnl = none)
    (hsside : s.side = "SELL") :
    contrib sym s = if s.symbol = sym then -s.quantity else 0 := by
  rw [contrib]
  have hne : s.side ≠ "BUY" := by rw [hsside]; decide
  by_cases h : s.symbol = sym
  · rw [if_pos ⟨by rw [hsp]; rfl, h⟩, if_neg hne, if_pos hsside, if_pos h]
  · rw [if_neg (fun hc => h hc.2), if_neg h]

theorem contrib_mkBuyRemainder (sym : String) (b : Trade) (q : ℚ) (nid : Nat) :
    contrib sym (mkBuyRemainder b q nid) =
      if b.symbol = sym then b.quantity - q else 0 := by
  simp [contrib, mkBuyRemainder]

theorem sell_ne_buy : ("SELL" : String) ≠ "BUY" := by decide

theorem contrib_mkSellRemainder (sym : String) (s : Trade) (q : ℚ) (nid : Nat) :
    contrib sym (mkSellRemainder s q nid) =
      if s.symbol = sym then -(s.quantity - q) else 0 := by
  rw [contrib]
  by_cases h : s.symbol = sym
  · have hside : (mkSellRemainder s q nid).side = "SELL" := rfl
    rw [if_pos ⟨rfl, h⟩, hside, if_neg sell_ne_buy, if_pos rfl, if_pos h]
    rfl
  · rw [if_neg (fun hc => h hc.2), if_neg h]

/-- A fully persisted match leaves every symbol's net unmatched position
(BUY quantities minus SELL quantities) unchanged. -/
theorem netPosition_afterMatchRows {rows : List Trade} {b s : Trade} {nid : Nat}
    (hnd : (rows.map (fun t => t.id)).Nodup) (hbound : ∀ t ∈ rows, t.id < nid)
    (hb : b ∈ rows) (hs : s ∈ rows) (hbp : b.pnl = none) (hsp : s.pnl = none)
    (hbside : b.side = "BUY") (hsside : s.side = "SELL") (hsym : s.symbol = b.symbol)
    (sym : String) :
    netPosition (afterMatchRows rows b s nid) sym = netPosition rows sym := by
  have hbs : b ≠ s := by
    intro hEq
    rw [hEq, hsside] at hbside
    simp at hbside
  have hsbid : s.id ≠ b.id := by
    intro hEq
    exact hbs (List.inj_on_of_nodup_map hnd hb hs hEq.symm)
  have hnd1 : (((rows ++ [mkCompleteTrade b s nid]).map (fun t => t.id))).Nodup := by
    rw [List.map_append]
    rw [List.nodup_append]
    refine ⟨hnd, by simp, ?_⟩
    intro i hi
    simp only [List.mem_map] at hi
    obtain ⟨u, hu, rfl⟩ := hi
    simp only [List.map_cons, List.map_nil, List.mem_singleton, mkCompleteTrade]
    intro hcontra
    exact absurd (hcontra ▸ hbound u hu) (lt_irrefl _)
  have hb1 : b ∈ rows ++ [mkCompleteTrade b s nid] := List.mem_append_left _ hb
  have hs1 : s ∈ rows ++ [mkCompleteTrade b s nid] := List.mem_append_left _ hs
  have hA1 := @sum_filter_ne_id (contrib sym) b (rows ++ [mkCompleteTrade b s nid]) hnd1 hb1
  have hnd2 : ((((rows ++ [mkCompleteTrade b s nid]).filter
      (fun t => t.id != b.id)).map (fun t => t.id))).Nodup :=
    ((List.filter_sublist (rows ++ [mkCompleteTrade b s nid])).map (fun t => t.id)).nodup hnd1
  have hs2 : s ∈ (rows ++ [mkCompleteTrade b s nid]).filter (fun t => t.id != b.id) := by
    simp only [List.mem_filter, bne_iff_ne]
    exact ⟨hs1, hsbid⟩
  have hA2 := @sum_filter_ne_id (contrib sym)
    s ((rows ++ [mkCompleteTrade b s nid]).filter (fun t => t.id != b.id)) hnd2 hs2
  rw [afterMatchRows, netPosition, List.map_append, List.sum_append, List.map_append,
    List.sum_append, hA2, hA1, List.map_append, List.sum_append,
    sum_map_if_singleton, sum_map_if_singleton]
  simp only [List.map_cons, List.map_nil, List.sum_cons, List.sum_nil,
    contrib_mkCompleteTrade, contrib_mkBuyRemainder, contrib_mkSellRemainder,
    contrib_buy hbp hbside, contrib_sell hsp hsside, hsym]
  rw [netPosition]
  rcases le_total b.quantity s.quantity with hle | hle
  · rw [min_eq_left hle]
    rcases lt_or_eq_of_le hle with hlt | hEq
    · split_ifs <;> linarith
    · split_ifs <;> linarith
  · rw [min_eq_right hle]
    rcases lt_or_eq_of_le hle with hlt | hEq
    · split_ifs <;> linarith
    · split_ifs <;> linarith

theorem matchStep_net {db : DBState} (hwf : db.WF) (hfa : db.failAt = none) (sym : String) :
    netPosition (matchStep db).1.rows sym = netPosition db.rows sym ∧
      (matchStep db).1.failAt = none := by
  rcases matchStep_cases db with h | ⟨b, s, hfp, h, _⟩
  · rw [h]; exact ⟨rfl, hfa⟩
  · obtain ⟨hbl, hsl, hbside, hsside, hsym, _, _, _, _⟩ := findPair_facts hfp
    obtain ⟨hbrows, hbpnl⟩ := unmatched_mem hbl
    obtain ⟨hsrows, hspnl⟩ := unmatched_mem hsl
    have happ := @applyMatch_ok db b s hfa
    rw [h, happ.1]
    exact ⟨netPosition_afterMatchRows hwf.1 hwf.2 hbrows hsrows hbpnl hspnl
      hbside hsside hsym sym, happ.2.2⟩

/-- A buy execution: 100 shares of AAPL at $10.00, commission $1,
entered Jan 1 2024. -/
def tBuy100 : Trade :=
  { id := 1, symbol := "AAPL", side := "BUY", quantity := 100, entryPrice := 10,
    exitPrice := none, entryDate := ⟨2024, 1, 1, 0⟩, exitDate := none, pnl := none,
    commission := 1, strategy := none, notes := none, tags := [], screenshots := [],
    assetType := "STOCK", optionType := none, strikePrice := none, expirationDate := none }

/-- A sell execution: 100 shares of AAPL at $12.00, commission $1,
entered Jan 5 2024. -/
def tSell100 : Trade :=
  { id := 2, symbol := "AAPL", side := "SELL", quantity := 100, entryPrice := 12,
    exitPrice := none, entryDate := ⟨2024, 1, 5, 0⟩, exitDate := none, pnl := none,
    commission := 1, strategy := none, notes := none, tags := [], screenshots := [],
    assetType := "STOCK", optionType := none, strikePrice := none, expirationDate := none }

/-- A store holding exactly the matchable buy/sell pair above. -/
def dbPair : DBState :=
  { rows := [tBuy100, tSell100], nextId := 3, failAt := none, opCount := 0 }

instance (db : DBState) : Decidable db.WF := by
  unfold DBState.WF
  infer_instance

/-- C2 (counterexample): matching the 100-share buy against the 100-share
sell removes trades totalling 200 shares from the unmatched pool but adds
back a single matched trade of 100 shares (and no remainders), so the sum of
quantities removed does not equal the sum added back — the matched quantity
is consumed from both legs at once. -/
theorem c2_counterexample_sum_not_conserved :
    (matchAndCalculatePnL dbPair).rows = [mkCompleteTrade tBuy100 tSell100 3] ∧
      tBuy100.quantity + tSell100.quantity = 200 ∧
      (mkCompleteTrade tBuy100 tSell100 3).quantity = 100 := by
  refine ⟨by rfl, by norm_num [tBuy100, tSell100], ?_⟩
  norm_num [mkCompleteTrade, tBuy100, tSell100]

/-- C2 (amended): reconciliation conserves every symbol's net position — the
sum of BUY-side quantities minus SELL-side quantities over the unmatched
trades is the same after `matchAndCalculatePnL` runs to completion as before
(for any well-formed store with no persistence failure scheduled). -/
theorem c2_amended_net_position_conserved (db : DBState) (hwf : db.WF)
    (hfa : db.failAt = none) (sym : String) :
    netPosition (matchAndCalculatePnL db).rows sym = netPosition db.rows sym := by
  rw [matchAndCalculatePnL]
  have hinv := matchLoop_inv
    (fun d => d.WF ∧ d.failAt = none ∧ netPosition d.rows sym = netPosition db.rows sym)
    (fun d hd => ⟨matchStep_wf hd.1, (matchStep_net hd.1 hd.2.1 sym).2,
      (matchStep_net hd.1 hd.2.1 sym).1.trans hd.2.2⟩)
    50 db ⟨hwf, hfa, rfl⟩
  exact hinv.2.2

/-- C2 (witness): the amended conservation theorem applied to the concrete
AAPL pair store. -/
theorem c2_amended_witness :
    dbPair.WF ∧ dbPair.failAt = none ∧
      netPosition (matchAndCalculatePnL dbPair).rows "AAPL" =
        netPosition dbPair.rows "AAPL" :=
  ⟨by decide, rfl, c2_amended_net_position_conserved dbPair (by decide) rfl "AAPL"⟩

/-- A trade whose P&L is already set (a closed round trip in history). -/
def tDone : Trade :=
  { id := 10, symbol := "AAPL", side := "BUY", quantity := 7, entryPrice := 5,
    exitPrice := some 9, entryDate := ⟨2023, 6, 2, 0⟩, exitDate := some ⟨2023, 6, 3, 0⟩,
    pnl := some 28, commission := 0, strategy := none, notes := none, tags := [],
    screenshots := [], assetType := "STOCK", optionType := none, strikePrice := none,
    expirationDate := none }

/-- A store holding a closed (P&L-set) trade next to the matchable pair. -/
def dbWithDone : DBState :=
  { rows := [tDone, tBuy100, tSell100], nextId := 11, failAt := none, opCount := 0 }

/-- C5: a trade whose P&L is set is left completely unchanged by a full run
of the Matching Engine — it is still stored verbatim afterwards, and it is
never selected as a matching candidate (the iteration's pair always comes
from the P&L-unset working list). -/
theorem c5_pnl_set_untouched (db : DBState) (hwf : db.WF) (t : Trade)
    (ht : t ∈ db.rows) (hp : t.pnl.isSome) :
    t ∈ (matchAndCalculatePnL db).rows ∧
      (∀ b s, findPair (unmatchedOf db) = some (b, s) → b ≠ t ∧ s ≠ t) := by
  constructor
  · rw [matchAndCalculatePnL]
    have hinv := matchLoop_inv (fun d => d.WF ∧ t ∈ d.rows)
      (fun d hd => ⟨matchStep_wf hd.1, matchStep_frame hd.1 hd.2 (Or.inl hp)⟩)
      50 db ⟨hwf, ht⟩
    exact hinv.2
  · intro b s hfp
    obtain ⟨hbl, hsl, _, _, _, _, _, _, _⟩ := findPair_facts hfp
    obtain ⟨_, hbpnl⟩ := unmatched_mem hbl
    obtain ⟨_, hspnl⟩ := unmatched_mem hsl
    constructor
    · intro hEq
      rw [← hEq, hbpnl] at hp
      simp at hp
    · intro hEq
      rw [← hEq, hspnl] at hp
      simp at hp

/-- C5 (witness): the closed trade `tDone` survives a reconciliation run that
matches and rewrites the open pair stored next to it. -/
theorem c5_witness :
    dbWithDone.WF ∧ tDone ∈ dbWithDone.rows ∧ tDone.pnl.isSome ∧
      tDone ∈ (matchAndCalculatePnL dbWithDone).rows :=
  ⟨by decide, by decide, by decide,
    (c5_pnl_set_untouched dbWithDone (by decide) tDone (by decide) (by decide)).1⟩

/-- The same execution as `tBuy100` but recorded with side `LONG` — a value
the store's schema accepts (`side IN ('BUY','SELL','LONG','SHORT')`). -/
def tLong100 : Trade := { tBuy100 with side := "LONG" }

/-- C10 (counterexample): a LONG trade is not matched like the corresponding
BUY trade.  With an unmatched LONG and an unmatched SELL of the same symbol,
the grouping code (`electron.js` lines 577-581) routes the LONG trade into
neither queue, so no pair is found; with side `BUY` instead — the trade being
otherwise identical — the pair is matched. -/
theorem c10_counterexample_long_not_matched :
    findPair [tLong100, tSell100] = none ∧
      findPair [tBuy100, tSell100] = some (tBuy100, tSell100) ∧
      tLong100.side = "LONG" ∧ ({ tLong100 with side := "BUY" } : Trade) = tBuy100 := by
  refine ⟨by rfl, by rfl, rfl, by rfl⟩

/-- C10 (amended): the matching logic recognises only the literal sides
`BUY` and `SELL`: every pair it selects has those sides, and a stored trade
with any other side (`LONG`, `SHORT`, ...) is never matched, modified or
deleted by a full reconciliation run. -/
theorem c10_amended_long_short_ignored :
    (∀ (l : List Trade) (b s : Trade), findPair l = some (b, s) →
        b.side = "BUY" ∧ s.side = "SELL") ∧
      (∀ (db : DBState), db.WF → ∀ t ∈ db.rows, t.side ≠ "BUY" → t.side ≠ "SELL" →
        t ∈ (matchAndCalculatePnL db).rows) := by
  constructor
  · intro l b s hfp
    obtain ⟨_, _, hbside, hsside, _, _, _, _, _⟩ := findPair_facts hfp
    exact ⟨hbside, hsside⟩
  · intro db hwf t ht hnb hns
    rw [matchAndCalculatePnL]
    have hinv := matchLoop_inv (fun d => d.WF ∧ t ∈ d.rows)
      (fun d hd => ⟨matchStep_wf hd.1, matchStep_frame hd.1 hd.2 (Or.inr ⟨hnb, hns⟩)⟩)
      50 db ⟨hwf, ht⟩
    exact hinv.2

/-- C10 (witness): the amended theorem applied to the concrete store holding
the LONG trade and a SELL of the same symbol: the LONG trade survives the
run untouched. -/
theorem c10_amended_witness :
    findPair [tBuy100, tSell100] = some (tBuy100, tSell100) ∧
      tBuy100.side = "BUY" ∧ tSell100.side = "SELL" ∧
      tLong100 ∈ (matchAndCalculatePnL
        { rows := [tLong100, tSell100], nextId := 3, failAt := none, opCount := 0 }).rows :=
  ⟨by rfl, (c10_amended_long_short_ignored.1 [tBuy100, tSell100] tBuy100 tSell100 (by rfl)).1,
    (c10_amended_long_short_ignored.1 [tBuy100, tSell100] tBuy100 tSell100 (by rfl)).2,
    c10_amended_long_short_ignored.2
      { rows := [tLong100, tSell100], nextId := 3, failAt := none, opCount := 0 }
      (by decide) tLong100 (by decide) (by decide) (by decide)⟩

theorem findPair_nil : findPair ([] : List Trade) = none := rfl

theorem matchStep_of_pair {db : DBState} {b s : Trade}
    (hfp : findPair (unmatchedOf db) = some (b, s)) :
    (matchStep db).1 = (applyMatch db b s).1 ∧
      ((applyMatch db b s).2 = false → (matchStep db).2 = none) := by
  rw [matchStep]
  dsimp only
  rw [unmatchedOf] at hfp
  have hne : ¬ ((fetchTrades db).filter (fun t => t.pnl.isNone)).isEmpty = true := by
    intro hEmpty
    rw [List.isEmpty_iff] at hEmpty
    rw [hEmpty, findPair_nil] at hfp
    exact Option.noConfusion hfp
  rw [if_neg hne, hfp]
  dsimp only
  constructor
  · by_cases hflag : (applyMatch db b s).2 <;> simp [hflag]
  · intro hflag
    simp [hflag]

theorem complete_mem_afterMatchRows {rows : List Trade} {b s : Trade} {nid : Nat}
    (hbid : b.id ≠ nid) (hsid : s.id ≠ nid) :
    mkCompleteTrade b s nid ∈ afterMatchRows rows b s nid := by
  rw [afterMatchRows]
  apply List.mem_append_left
  apply List.mem_append_left
  refine List.mem_filter.mpr ⟨List.mem_filter.mpr ⟨List.mem_append_right _ (by simp), ?_⟩, ?_⟩
  · exact bne_iff_ne.mpr (fun hc => hbid ((show (mkCompleteTrade b s nid).id = nid from rfl) ▸ hc).symm)
  · exact bne_iff_ne.mpr (fun hc => hsid ((show (mkCompleteTrade b s nid).id = nid from rfl) ▸ hc).symm)

theorem not_mem_afterMatchRows_of_leg {rows : List Trade} {b s : Trade} {nid : Nat}
    {t : Trade} (htl : t.id < nid) (hts : t.id = b.id ∨ t.id = s.id) :
    t ∉ afterMatchRows rows b s nid := by
  intro hmem
  rw [afterMatchRows] at hmem
  rcases List.mem_append.mp hmem with h12 | h3
  · rcases List.mem_append.mp h12 with hF | h1
    · obtain ⟨hF1, hbneS⟩ := List.mem_filter.mp hF
      obtain ⟨_, hbneB⟩ := List.mem_filter.mp hF1
      rcases hts with hid | hid
      · exact absurd hid (bne_iff_ne.mp hbneB)
      · exact absurd hid (bne_iff_ne.mp hbneS)
    · by_cases hc : min b.quantity s.quantity < b.quantity
      · rw [if_pos hc, List.mem_singleton] at h1
        have : t.id = nid + 1 := by rw [h1]; rfl
        omega
      · rw [if_neg hc] at h1
        exact absurd h1 (List.not_mem_nil t)
  · by_cases hc : min b.quantity s.quantity < s.quantity
    · rw [if_pos hc, List.mem_singleton] at h3
      by_cases hc2 : min b.quantity s.quantity < b.quantity
      · rw [if_pos hc2] at h3
        have : t.id = nid + 2 := by rw [h3]; rfl
        omega
      · rw [if_neg hc2] at h3
        have : t.id = nid + 1 := by rw [h3]; rfl
        omega
    · rw [if_neg hc] at h3
      exact absurd h3 (List.not_mem_nil t)

/-- C1: when an iteration of the Matching Engine applies a match to the
FIFO-selected buy/sell pair, the trade it persists has id equal to the
store's next rowid, quantity `q = min(buy.quantity, sell.quantity)` and
realized P&L exactly
`(sell.entryPrice - buy.entryPrice) * q - buy.commission - sell.commission`. -/
theorem c1_matched_pnl_formula (db : DBState) (b s : Trade) (hwf : db.WF)
    (hfa : db.failAt = none) (hfp : findPair (unmatchedOf db) = some (b, s)) :
    ∃ t ∈ (matchStep db).1.rows, t.id = db.nextId ∧
      t.quantity = min b.quantity s.quantity ∧
      t.pnl = some ((s.entryPrice - b.entryPrice) * min b.quantity s.quantity
        - b.commission - s.commission) := by
  obtain ⟨hbl, hsl, _, _, _, _, _, _, _⟩ := findPair_facts hfp
  obtain ⟨hbrows, _⟩ := unmatched_mem hbl
  obtain ⟨hsrows, _⟩ := unmatched_mem hsl
  have hstep := (matchStep_of_pair hfp).1
  have happ := @applyMatch_ok db b s hfa
  rw [hstep, happ.1]
  refine ⟨mkCompleteTrade b s db.nextId, ?_, rfl, rfl, rfl⟩
  exact complete_mem_afterMatchRows
    (Nat.ne_of_lt (hwf.2 b hbrows)) (Nat.ne_of_lt (hwf.2 s hsrows))

/-- C1 (witness): matching the concrete pair — buy 100 @ $10 commission $1
against sell 100 @ $12 commission $1 — persists a matched trade with
pnl = (12 - 10) * 100 - 1 - 1 = 198 exactly. -/
theorem c1_witness :
    dbPair.WF ∧ findPair (unmatchedOf dbPair) = some (tBuy100, tSell100) ∧
      ∃ t ∈ (matchStep dbPair).1.rows, t.id = 3 ∧ t.quantity = 100 ∧ t.pnl = some 198 := by
  refine ⟨by decide, by rfl, ?_⟩
  obtain ⟨t, htmem, hid, hq, hp⟩ :=
    c1_matched_pnl_formula dbPair tBuy100 tSell100 (by decide) rfl (by rfl)
  refine ⟨t, htmem, hid, ?_, ?_⟩
  · rw [hq]
    norm_num [tBuy100, tSell100]
  · rw [hp]
    norm_num [tBuy100, tSell100]

/-- C4: a match applied to the FIFO-selected pair persists the matched trade,
persists a remainder trade for each leg whose quantity exceeds the matched
quantity — the remainder keeps the leg's side, price and entry date, has the
excess quantity, P&L unset and commission 0 (see `mkBuyRemainder` /
`mkSellRemainder`) — and deletes both original trades. -/
theorem c4_partial_fill_remainder (db : DBState) (b s : Trade) (hwf : db.WF)
    (hfa : db.failAt = none) (hfp : findPair (unmatchedOf db) = some (b, s)) :
    mkCompleteTrade b s db.nextId ∈ (matchStep db).1.rows ∧
      (min b.quantity s.quantity < b.quantity →
        mkBuyRemainder b (min b.quantity s.quantity) (db.nextId + 1) ∈
          (matchStep db).1.rows) ∧
      (min b.quantity s.quantity < s.quantity →
        mkSellRemainder s (min b.quantity s.quantity) (db.nextId + 1) ∈
          (matchStep db).1.rows) ∧
      b ∉ (matchStep db).1.rows ∧ s ∉ (matchStep db).1.rows := by
  obtain ⟨hbl, hsl, _, _, _, _, _, _, _⟩ := findPair_facts hfp
  obtain ⟨hbrows, _⟩ := unmatched_mem hbl
  obtain ⟨hsrows, _⟩ := unmatched_mem hsl
  have hstep := (matchStep_of_pair hfp).1
  have happ := @applyMatch_ok db b s hfa
  rw [hstep, happ.1]
  refine ⟨complete_mem_afterMatchRows (Nat.ne_of_lt (hwf.2 b hbrows))
      (Nat.ne_of_lt (hwf.2 s hsrows)), ?_, ?_, ?_, ?_⟩
  · intro hc
    rw [afterMatchRows]
    apply List.mem_append_left
    apply List.mem_append_right
    rw [if_pos hc]
    simp
  · intro hc
    have hc2 : ¬ min b.quantity s.quantity < b.quantity := by
      rcases min_cases b.quantity s.quantity with ⟨hm, _⟩ | ⟨hm, hle⟩
      · rw [hm]; exact lt_irrefl _
      · rw [hm] at hc; exact absurd hc (lt_irrefl _)
    rw [afterMatchRows]
    apply List.mem_append_right
    rw [if_pos hc, if_neg hc2]
    simp
  · exact not_mem_afterMatchRows_of_leg (hwf.2 b hbrows) (Or.inl rfl)
  · exact not_mem_afterMatchRows_of_leg (hwf.2 s hsrows) (Or.inr rfl)

/-- A buy execution: 150 shares of MSFT at $10.00, zero commission,
entered Jan 2 2024. -/
def tBuy150 : Trade :=
  { id := 1, symbol := "MSFT", side := "BUY", quantity := 150, entryPrice := 10,
    exitPrice := none, entryDate := ⟨2024, 1, 2, 0⟩, exitDate := none, pnl := none,
    commission := 0, strategy := none, notes := none, tags := [], screenshots := [],
    assetType := "STOCK", optionType := none, strikePrice := none, expirationDate := none }

/-- A sell execution: 100 shares of MSFT at $12.00, zero commission,
entered Jan 6 2024. -/
def tSell100z : Trade :=
  { id := 2, symbol := "MSFT", side := "SELL", quantity := 100, entryPrice := 12,
    exitPrice := none, entryDate := ⟨2024, 1, 6, 0⟩, exitDate := none, pnl := none,
    commission := 0, strategy := none, notes := none, tags := [], screenshots := [],
    assetType := "STOCK", optionType := none, strikePrice := none, expirationDate := none }

/-- A store holding the 150-share buy against the 100-share sell. -/
def dbPartial : DBState :=
  { rows := [tBuy150, tSell100z], nextId := 3, failAt := none, opCount := 0 }

/-- C4 (witness): buy 150 @ $10 against sell 100 @ $12 (both zero
commission) yields a matched trade of 100 shares with pnl = 200 and one
remainder BUY trade of 50 shares with pnl unset and commission 0, while both
original trades are deleted. -/
theorem c4_witness :
    dbPartial.WF ∧ findPair (unmatchedOf dbPartial) = some (tBuy150, tSell100z) ∧
      (mkCompleteTrade tBuy150 tSell100z 3).quantity = 100 ∧
      (mkCompleteTrade tBuy150 tSell100z 3).pnl = some 200 ∧
      mkCompleteTrade tBuy150 tSell100z 3 ∈ (matchStep dbPartial).1.rows ∧
      (mkBuyRemainder tBuy150 (min tBuy150.quantity tSell100z.quantity) 4).quantity = 50 ∧
      (mkBuyRemainder tBuy150 (min tBuy150.quantity tSell100z.quantity) 4).pnl = none ∧
      (mkBuyRemainder tBuy150 (min tBuy150.quantity tSell100z.quantity) 4).commission = 0 ∧
      mkBuyRemainder tBuy150 (min tBuy150.quantity tSell100z.quantity) 4 ∈
        (matchStep dbPartial).1.rows ∧
      tBuy150 ∉ (matchStep dbPartial).1.rows ∧
      tSell100z ∉ (matchStep dbPartial).1.rows := by
  have hmin : min tBuy150.quantity tSell100z.quantity = 100 := by
    norm_num [tBuy150, tSell100z]
  obtain ⟨hcm, hbr, _, hbgone, hsgone⟩ :=
    c4_partial_fill_remainder dbPartial tBuy150 tSell100z (by decide) rfl (by rfl)
  refine ⟨by decide, by rfl, ?_, ?_, hcm, ?_, rfl, rfl, ?_, hbgone, hsgone⟩
  · show min tBuy150.quantity tSell100z.quantity = 100
    exact hmin
  · show some ((tSell100z.entryPrice - tBuy150.entryPrice)
      * min tBuy150.quantity tSell100z.quantity
      - tBuy150.commission - tSell100z.commission) = some 200
    norm_num [tBuy150, tSell100z]
  · show tBuy150.quantity - min tBuy150.quantity tSell100z.quantity = 50
    norm_num [tBuy150, tSell100z]
  · exact hbr (by norm_num [tBuy150, tSell100z])

/-- First of two TSLA buys sharing an entry date: rowid 1. -/
def tBuyTie1 : Trade :=
  { id := 1, symbol := "TSLA", side := "BUY", quantity := 10, entryPrice := 10,
    exitPrice := none, entryDate := ⟨2024, 1, 1, 0⟩, exitDate := none, pnl := none,
    commission := 0, strategy := none, notes := none, tags := [], screenshots := [],
    assetType := "STOCK", optionType := none, strikePrice := none, expirationDate := none }

/-- Second TSLA buy with the same entry date as `tBuyTie1`: rowid 2. -/
def tBuyTie2 : Trade := { tBuyTie1 with id := 2 }

/-- A TSLA sell dated after both tied buys. -/
def tSellTie : Trade :=
  { id := 3, symbol := "TSLA", side := "SELL", quantity := 20, entryPrice := 12,
    exitPrice := none, entryDate := ⟨2024, 1, 5, 0⟩, exitDate := none, pnl := none,
    commission := 0, strategy := none, notes := none, tags := [], screenshots := [],
    assetType := "STOCK", optionType := none, strikePrice := none, expirationDate := none }

/-- C3 (counterexample): the comparator `new Date(a.entryDate) - new
Date(b.entryDate)` has no identifier tie-break and the stable sort preserves
the incoming order, which for equal entry dates is whatever order the store
returned (`ORDER BY entry_date DESC` leaves it unspecified).  On the fetched
list `[sell, buy#2, buy#1]` — a legitimate descending-by-date result with the
two equal-dated buys in reverse rowid order — the engine matches buy#2 first,
not the earlier-inserted, lower-identifier buy#1. -/
theorem c3_counterexample_tie_not_id_order :
    findPair [tSellTie, tBuyTie2, tBuyTie1] = some (tBuyTie2, tSellTie) ∧
      tBuyTie1.entryDate = tBuyTie2.entryDate ∧ tBuyTie1.id < tBuyTie2.id := by
  exact ⟨by rfl, rfl, by decide⟩

/-- C3 (amended): the pair selected by the matching scan is FIFO-earliest by
entry date on each side — every same-symbol buy (resp. sell) in the list has
an entry date no earlier than the selected leg's — and a tie on the minimal
entry date is broken by position in the scanned list (the selected leg is the
first list element attaining the minimum), not by identifier. -/
theorem c3_amended_fifo_earliest (l : List Trade) (b s : Trade)
    (hfp : findPair l = some (b, s)) :
    (∀ b' ∈ l, b'.side = "BUY" → b'.symbol = b.symbol →
        dtLe b.entryDate b'.entryDate) ∧
      (∀ s' ∈ l, s'.side = "SELL" → s'.symbol = s.symbol →
        dtLe s.entryDate s'.entryDate) ∧
      (∃ pre post, buysFor l b.symbol = pre ++ b :: post ∧
        ∀ x ∈ pre, ¬ dtLe x.entryDate b.entryDate) ∧
      (∃ pre post, sellsFor l s.symbol = pre ++ s :: post ∧
        ∀ x ∈ pre, ¬ dtLe x.entryDate s.entryDate) := by
  obtain ⟨_, _, _, _, _, _, _, hbmin, hsmin⟩ := findPair_facts hfp
  rw [findPair] at hfp
  obtain ⟨k, bt, st, hb, hs, _⟩ := findPairIn_spec _ hfp
  have hbsym : b.symbol = k :=
    (mem_buysFor.mp (mem_of_insertionSort_eq hb (by simp))).2.1
  have hssym : s.symbol = k :=
    (mem_sellsFor.mp (mem_of_insertionSort_eq hs (by simp))).2.1
  refine ⟨hbmin, hsmin, ?_, ?_⟩
  · rw [hbsym]
    exact insertionSort_head_stable tradeDateLe (buysFor l k) b bt hb
  · rw [hssym]
    exact insertionSort_head_stable tradeDateLe (sellsFor l k) s st hs

/-- An NVDA buy entered Jan 1. -/
def tBuyJan1 : Trade :=
  { id := 1, symbol := "NVDA", side := "BUY", quantity := 10, entryPrice := 10,
    exitPrice := none, entryDate := ⟨2024, 1, 1, 0⟩, exitDate := none, pnl := none,
    commission := 0, strategy := none, notes := none, tags := [], screenshots := [],
    assetType := "STOCK", optionType := none, strikePrice := none, expirationDate := none }

/-- An NVDA buy entered Jan 3. -/
def tBuyJan3 : Trade := { tBuyJan1 with id := 2, entryDate := ⟨2024, 1, 3, 0⟩ }

/-- An NVDA sell entered Jan 5 with quantity at least both buys. -/
def tSellJan5 : Trade :=
  { id := 3, symbol := "NVDA", side := "SELL", quantity := 30, entryPrice := 12,
    exitPrice := none, entryDate := ⟨2024, 1, 5, 0⟩, exitDate := none, pnl := none,
    commission := 0, strategy := none, notes := none, tags := [], screenshots := [],
    assetType := "STOCK", optionType := none, strikePrice := none, expirationDate := none }

/-- C3 (witness): with buys dated Jan 1 and Jan 3 and a Jan 5 sell of
sufficient quantity, the Jan 1 buy is matched first, and the amended theorem
certifies it is earliest-by-date among the symbol's buys. -/
theorem c3_amended_witness :
    findPair [tSellJan5, tBuyJan3, tBuyJan1] = some (tBuyJan1, tSellJan5) ∧
      dtLe tBuyJan1.entryDate tBuyJan3.entryDate ∧
      ∀ b' ∈ [tSellJan5, tBuyJan3, tBuyJan1], b'.side = "BUY" →
        b'.symbol = tBuyJan1.symbol → dtLe tBuyJan1.entryDate b'.entryDate :=
  ⟨by rfl, by decide,
    (c3_amended_fifo_earliest [tSellJan5, tBuyJan3, tBuyJan1] tBuyJan1 tSellJan5 (by rfl)).1⟩

theorem matchLoop_succ (n : Nat) (db : DBState) :
    matchLoop (n + 1) db =
      match matchStep db with
      | (db', some true) => matchLoop n db'
      | (db', some false) => (db', false)
      | (db', none) => (db', true) := rfl

/-- C6 (amended): when the repository operation after the matched-trade
insert rejects (`failAt = opCount + 1`, i.e. the delete of the original buy
fails), the whole matching run stops with its internal error flag set, the
already-inserted matched trade stays in the store while both original legs
also remain (no rollback), and the `'match-pnl'` handler nevertheless
reports success — `matchAndCalculatePnL` catches every error internally and
only logs it, so the caller never sees a failed result. -/
theorem c6_amended_error_swallowed (db : DBState) (b s : Trade)
    (hfp : findPair (unmatchedOf db) = some (b, s))
    (hfail : db.failAt = some (db.opCount + 1)) :
    (matchLoop 50 db).2 = true ∧ (matchPnlResult db).2 = true ∧
      (matchPnlResult db).1.rows = db.rows ++ [mkCompleteTrade b s db.nextId] := by
  have h0 : db.opOk = true := by
    rw [DBState.opOk, hfail]
    refine bne_iff_ne.mpr ?_
    intro hc
    have := Option.some.inj hc
    omega
  have h1 : (db.commitSave (fun nid => mkCompleteTrade b s nid)).opOk = false := by
    rw [DBState.opOk, commitSave_failAt, hfail]
    have hoc : (db.commitSave (fun nid => mkCompleteTrade b s nid)).opCount
        = db.opCount + 1 := rfl
    rw [hoc]
    simp
  have happ : applyMatch db b s =
      (db.commitSave (fun nid => mkCompleteTrade b s nid), false) := by
    rw [applyMatch, h0]
    dsimp only
    rw [h1]
    simp
  have hms1 := (matchStep_of_pair hfp).1
  have hms2 := (matchStep_of_pair hfp).2 (by rw [happ])
  have hms : matchStep db = (db.commitSave (fun nid => mkCompleteTrade b s nid), none) := by
    rcases hmse : matchStep db with ⟨d', r⟩
    rw [hmse] at hms1 hms2
    rw [happ] at hms1
    simp only at hms1 hms2
    rw [hms1, hms2]
  have hloop : matchLoop 50 db =
      (db.commitSave (fun nid => mkCompleteTrade b s nid), true) := by
    rw [show (50 : Nat) = 49 + 1 from rfl, matchLoop_succ, hms]
  refine ⟨by rw [hloop], rfl, ?_⟩
  show (matchAndCalculatePnL db).rows = _
  rw [matchAndCalculatePnL, hloop]
  rfl

/-- The concrete pair store with the repository scheduled to reject the
second operation of the run (the delete of the original buy). -/
def dbFail : DBState :=
  { rows := [tBuy100, tSell100], nextId := 3, failAt := some 1, opCount := 0 }

/-- C6 (counterexample): a repository error during the persistence steps is
not reported to the caller as a failed result.  On `dbFail` the delete of
the original buy rejects, the matching loop aborts with its error flag set
(`(matchLoop 50 dbFail).2 = true`), yet the `'match-pnl'` handler result is
success — the `catch` inside `matchAndCalculatePnL` only logs. -/
theorem c6_counterexample_success_despite_error :
    (matchLoop 50 dbFail).2 = true ∧ (matchPnlResult dbFail).2 = true :=
  ⟨by rfl, rfl⟩

/-- C6 (witness): the amended theorem applied to `dbFail`: the matched trade
is inserted, both originals remain, the run aborts, and the handler still
reports success. -/
theorem c6_amended_witness :
    findPair (unmatchedOf dbFail) = some (tBuy100, tSell100) ∧
      dbFail.failAt = some (dbFail.opCount + 1) ∧
      (matchLoop 50 dbFail).2 = true ∧ (matchPnlResult dbFail).2 = true ∧
      (matchPnlResult dbFail).1.rows =
        dbFail.rows ++ [mkCompleteTrade tBuy100 tSell100 3] := by
  have h := c6_amended_error_swallowed dbFail tBuy100 tSell100 (by rfl) rfl
  exact ⟨by rfl, rfl, h.1, h.2.1, h.2.2⟩

/-- The pnl column values feeding the aggregate query. -/
def mPnls (rows : List Trade) (r : DateRange) : List ℚ := (metricRows rows r).map pnlV

/-- The winning pnl values (`pnl > 0`). -/
def mWins (rows : List Trade) (r : DateRange) : List ℚ :=
  (mPnls rows r).filter (fun p => decide (0 < p))

/-- The losing pnl values (`pnl < 0`). -/
def mLosses (rows : List Trade) (r : DateRange) : List ℚ :=
  (mPnls rows r).filter (fun p => decide (p < 0))

/-- SQL `AVG` over the winners: `NULL` on an empty set. -/
def mAvgWin (rows : List Trade) (r : DateRange) : Option ℚ :=
  if (mWins rows r).isEmpty then none
  else some ((mWins rows r).sum / ((mWins rows r).length : ℚ))

/-- SQL `AVG` over the losers: `NULL` on an empty set. -/
def mAvgLoss (rows : List Trade) (r : DateRange) : Option ℚ :=
  if (mLosses rows r).isEmpty then none
  else some ((mLosses rows r).sum / ((mLosses rows r).length : ℚ))

theorem gpm_totalTrades (rows : List Trade) (r : DateRange) :
    (getPerformanceMetrics rows r).totalTrades = (mPnls rows r).length := rfl

theorem gpm_winningTrades (rows : List Trade) (r : DateRange) :
    (getPerformanceMetrics rows r).winningTrades = (mWins rows r).length := rfl

theorem gpm_winRate (rows : List Trade) (r : DateRange) :
    (getPerformanceMetrics rows r).winRate =
      if (mPnls rows r).length = 0 then 0
      else ((mWins rows r).length : ℚ) / ((mPnls rows r).length : ℚ) := rfl

theorem gpm_averageWin (rows : List Trade) (r : DateRange) :
    (getPerformanceMetrics rows r).averageWin = (mAvgWin rows r).getD 0 := rfl

theorem gpm_averageLoss (rows : List Trade) (r : DateRange) :
    (getPerformanceMetrics rows r).averageLoss = (mAvgLoss rows r).getD 0 := rfl

theorem gpm_profitFactor (rows : List Trade) (r : DateRange) :
    (getPerformanceMetrics rows r).profitFactor =
      match mAvgLoss rows r with
      | some al => if al ≠ 0 ∧ al < 0 then |(mAvgWin rows r).getD 0 / al| else 0
      | none => 0 := rfl

/-- C7: `winRate` is `winningTrades / totalTrades` when `totalTrades > 0`
and 0 when `totalTrades = 0`; `profitFactor` is
`|averageWin / averageLoss|` when `averageLoss < 0` and 0 otherwise — in
particular a range with zero P&L-set trades yields `winRate = 0` and
`profitFactor = 0` with no division performed. -/
theorem c7_winrate_profitfactor (rows : List Trade) (r : DateRange) :
    ((getPerformanceMetrics rows r).totalTrades = 0 →
        (getPerformanceMetrics rows r).winRate = 0 ∧
          (getPerformanceMetrics rows r).profitFactor = 0) ∧
      (0 < (getPerformanceMetrics rows r).totalTrades →
        (getPerformanceMetrics rows r).winRate =
          ((getPerformanceMetrics rows r).winningTrades : ℚ) /
            ((getPerformanceMetrics rows r).totalTrades : ℚ)) ∧
      ((getPerformanceMetrics rows r).averageLoss < 0 →
        (getPerformanceMetrics rows r).profitFactor =
          |(getPerformanceMetrics rows r).averageWin /
            (getPerformanceMetrics rows r).averageLoss|) ∧
      (0 ≤ (getPerformanceMetrics rows r).averageLoss →
        (getPerformanceMetrics rows r).profitFactor = 0) := by
  refine ⟨?_, ?_, ?_, ?_⟩
  · intro h
    rw [gpm_totalTrades] at h
    constructor
    · rw [gpm_winRate, if_pos h]
    · rw [gpm_profitFactor]
      have hnil : mPnls rows r = [] := List.length_eq_zero.mp h
      have hlnil : mLosses rows r = [] := by rw [mLosses, hnil]; rfl
      have hml : mAvgLoss rows r = none := by
        rw [mAvgLoss, hlnil]
        rfl
      rw [hml]
  · intro h
    rw [gpm_totalTrades] at h
    rw [gpm_winRate, gpm_winningTrades, gpm_totalTrades, if_neg (by omega)]
  · intro h
    rw [gpm_averageLoss] at h
    rw [gpm_profitFactor, gpm_averageWin, gpm_averageLoss]
    rcases hml : mAvgLoss rows r with _ | al
    · rw [hml] at h
      simp at h
    · rw [hml] at h
      simp only [Option.getD_some] at h ⊢
      rw [if_pos ⟨ne_of_lt h, h⟩]
  · intro h
    rw [gpm_averageLoss] at h
    rw [gpm_profitFactor]
    rcases hml : mAvgLoss rows r with _ | al
    · rfl
    · rw [hml] at h
      simp only [Option.getD_some] at h
      exact if_neg (fun hc => absurd hc.2 (not_lt.mpr h))

/-- C7 (witness): a store whose only trade has no P&L set gives a range with
zero P&L-set trades: `winRate = 0` and `profitFactor = 0`. -/
theorem c7_witness :
    (getPerformanceMetrics [tBuy100] { startDate := none, endDate := none }).totalTrades = 0 ∧
      (getPerformanceMetrics [tBuy100] { startDate := none, endDate := none }).winRate = 0 ∧
      (getPerformanceMetrics [tBuy100] { startDate := none, endDate := none }).profitFactor = 0 := by
  have h := (c7_winrate_profitfactor [tBuy100]
    { startDate := none, endDate := none }).1 (by rfl)
  exact ⟨by rfl, h.1, h.2⟩

theorem sortTake_spec (R : Trade → Trade → Prop) [DecidableRel R] [IsTotal Trade R]
    [IsTrans Trade R] (W : List Trade) :
    ((List.insertionSort R W).take 10).length = min 10 W.length ∧
      List.Pairwise R ((List.insertionSort R W).take 10) ∧
      (∀ e ∈ (List.insertionSort R W).take 10, e ∈ W) ∧
      (∀ t ∈ W, t ∈ (List.insertionSort R W).take 10 ∨
        ∀ e ∈ (List.insertionSort R W).take 10, R e t) := by
  have hsorted := List.sorted_insertionSort R W
  have hperm := List.perm_insertionSort R W
  refine ⟨?_, ?_, ?_, ?_⟩
  · rw [List.length_take, hperm.length_eq]
  · exact List.Pairwise.sublist (List.take_sublist _ _) hsorted
  · intro e he
    exact hperm.subset (List.mem_of_mem_take he)
  · intro t ht
    have hts : t ∈ List.insertionSort R W := hperm.symm.subset ht
    rw [← List.take_append_drop 10 (List.insertionSort R W)] at hts
    rcases List.mem_append.mp hts with hmem | hmem
    · exact Or.inl hmem
    · refine Or.inr (fun e he => ?_)
      exact List.Sorted.rel_of_mem_take_of_mem_drop hsorted he hmem

theorem mem_winnerRows {rows : List Trade} {r : DateRange} {t : Trade} :
    t ∈ winnerRows rows r ↔
      t ∈ rows ∧ t.pnl.isSome ∧ 0 < pnlV t ∧ inRangeB r t := by
  simp [winnerRows, List.mem_filter, and_assoc]

theorem mem_loserRows {rows : List Trade} {r : DateRange} {t : Trade} :
    t ∈ loserRows rows r ↔
      t ∈ rows ∧ t.pnl.isSome ∧ pnlV t < 0 ∧ inRangeB r t := by
  simp [loserRows, List.mem_filter, and_assoc]

theorem gpm_topWinners (rows : List Trade) (r : DateRange) :
    (getPerformanceMetrics rows r).topWinners = topWinnersList rows r := rfl

theorem gpm_topLosers (rows : List Trade) (r : DateRange) :
    (getPerformanceMetrics rows r).topLosers = topLosersList rows r := rfl

/-- C8 (amended): `topWinners` is the up-to-10 highest-P&L trades among the
in-range trades with `pnl > 0` — ordered by P&L descending, projected to
(symbol, quantity, entryPrice, exitPrice, pnl, entryDate, exitDate) — and
`topLosers` the up-to-10 lowest among those with `pnl < 0`, ascending.
Trades with `pnl = 0` or of the opposite sign never appear, even when fewer
than 10 candidates exist. -/
theorem c8_amended_top_lists (rows : List Trade) (r : DateRange) :
    ((getPerformanceMetrics rows r).topWinners.length = min 10 (winnerRows rows r).length ∧
      List.Pairwise (fun a b : TradeSummary => b.pnl ≤ a.pnl)
        (getPerformanceMetrics rows r).topWinners ∧
      (∀ e ∈ (getPerformanceMetrics rows r).topWinners,
        0 < e.pnl ∧ ∃ t ∈ winnerRows rows r, projSummary t = e) ∧
      (∀ t ∈ winnerRows rows r,
        projSummary t ∈ (getPerformanceMetrics rows r).topWinners ∨
          ∀ e ∈ (getPerformanceMetrics rows r).topWinners, pnlV t ≤ e.pnl)) ∧
    ((getPerformanceMetrics rows r).topLosers.length = min 10 (loserRows rows r).length ∧
      List.Pairwise (fun a b : TradeSummary => a.pnl ≤ b.pnl)
        (getPerformanceMetrics rows r).topLosers ∧
      (∀ e ∈ (getPerformanceMetrics rows r).topLosers,
        e.pnl < 0 ∧ ∃ t ∈ loserRows rows r, projSummary t = e) ∧
      (∀ t ∈ loserRows rows r,
        projSummary t ∈ (getPerformanceMetrics rows r).topLosers ∨
          ∀ e ∈ (getPerformanceMetrics rows r).topLosers, e.pnl ≤ pnlV t)) := by
  obtain ⟨hwlen, hwpw, hwmem, hwtop⟩ := sortTake_spec pnlDescR (winnerRows rows r)
  obtain ⟨hllen, hlpw, hlmem, hltop⟩ := sortTake_spec pnlAscR (loserRows rows r)
  rw [gpm_topWinners, gpm_topLosers]
  constructor
  · refine ⟨?_, ?_, ?_, ?_⟩
    · rw [topWinnersList, List.length_map, hwlen]
    · rw [topWinnersList, List.pairwise_map]
      exact hwpw
    · intro e he
      rw [topWinnersList, List.mem_map] at he
      obtain ⟨t, htmem, rfl⟩ := he
      have htW := hwmem t htmem
      exact ⟨(mem_winnerRows.mp htW).2.2.1, t, htW, rfl⟩
    · intro t ht
      rcases hwtop t ht with hmem | hbound
      · exact Or.inl (by rw [topWinnersList]; exact List.mem_map_of_mem projSummary hmem)
      · refine Or.inr (fun e he => ?_)
        rw [topWinnersList, List.mem_map] at he
        obtain ⟨u, humem, rfl⟩ := he
        exact hbound u humem
  · refine ⟨?_, ?_, ?_, ?_⟩
    · rw [topLosersList, List.length_map, hllen]
    · rw [topLosersList, List.pairwise_map]
      exact hlpw
    · intro e he
      rw [topLosersList, List.mem_map] at he
      obtain ⟨t, htmem, rfl⟩ := he
      have htL := hlmem t htmem
      exact ⟨(mem_loserRows.mp htL).2.2.1, t, htL, rfl⟩
    · intro t ht
      rcases hltop t ht with hmem | hbound
      · exact Or.inl (by rw [topLosersList]; exact List.mem_map_of_mem projSummary hmem)
      · refine Or.inr (fun e he => ?_)
        rw [topLosersList, List.mem_map] at he
        obtain ⟨u, humem, rfl⟩ := he
        exact hbound u humem

/-- A closed losing trade: pnl −5. -/
def tNeg : Trade :=
  { id := 1, symbol := "AMD", side := "BUY", quantity := 10, entryPrice := 20,
    exitPrice := some 19, entryDate := ⟨2024, 2, 1, 0⟩, exitDate := some ⟨2024, 2, 2, 0⟩,
    pnl := some (-5), commission := 0, strategy := none, notes := none, tags := [],
    screenshots := [], assetType := "STOCK", optionType := none, strikePrice := none,
    expirationDate := none }

/-- A closed winning trade: pnl 30. -/
def tWin : Trade :=
  { id := 2, symbol := "AMD", side := "BUY", quantity := 10, entryPrice := 20,
    exitPrice := some 23, entryDate := ⟨2024, 2, 3, 0⟩, exitDate := some ⟨2024, 2, 4, 0⟩,
    pnl := some 30, commission := 0, strategy := none, notes := none, tags := [],
    screenshots := [], assetType := "STOCK", optionType := none, strikePrice := none,
    expirationDate := none }

/-- C8 (counterexample): `topWinners` is not "the 10 highest-P&L trades in
range".  With exactly one P&L-set trade in range — pnl −5, so it is the
highest-P&L trade of the range — the winners query (`WHERE pnl > 0`) returns
nothing: `topWinners = []` instead of containing that trade. -/
theorem c8_counterexample_winners_exclude_nonpositive :
    (getPerformanceMetrics [tNeg] { startDate := none, endDate := none }).totalTrades = 1 ∧
      tNeg.pnl = some (-5) ∧
      inRangeB { startDate := none, endDate := none } tNeg = true ∧
      (getPerformanceMetrics [tNeg] { startDate := none, endDate := none }).topWinners = [] :=
  ⟨by rfl, rfl, rfl, by rfl⟩

/-- C8 (witness): the amended theorem applied to a concrete store with one
winner and one loser: the single winner is the whole `topWinners` list. -/
theorem c8_amended_witness :
    (getPerformanceMetrics [tNeg, tWin] { startDate := none, endDate := none }).topWinners.length
        = min 10 (winnerRows [tNeg, tWin] { startDate := none, endDate := none }).length ∧
      min 10 (winnerRows [tNeg, tWin] { startDate := none, endDate := none }).length = 1 ∧
      projSummary tWin ∈
        (getPerformanceMetrics [tNeg, tWin]
          { startDate := none, endDate := none }).topWinners := by
  refine ⟨(c8_amended_top_lists [tNeg, tWin] { startDate := none, endDate := none }).1.1,
    by rfl, ?_⟩
  have hlist : (getPerformanceMetrics [tNeg, tWin]
      { startDate := none, endDate := none }).topWinners = [projSummary tWin] := by rfl
  rw [hlist]
  exact List.mem_singleton.mpr rfl

theorem dayAgg_date (l : List Trade) (d : LocalDate) : (dayAgg l d).date = d := rfl

theorem dayAgg_tradeCount (l : List Trade) (d : LocalDate) :
    (dayAgg l d).tradeCount = (l.filter (fun t => t.entryDate.toDate == d)).length := rfl

theorem dayAgg_pnl (l : List Trade) (d : LocalDate) :
    (dayAgg l d).pnl = ((l.filter (fun t => t.entryDate.toDate == d)).map pnlV).sum := rfl

theorem dayAgg_winRate (l : List Trade) (d : LocalDate) :
    (dayAgg l d).winRate =
      if (l.filter (fun t => t.entryDate.toDate == d)).length = 0 then 0
      else (((l.filter (fun t => t.entryDate.toDate == d)).filter
          (fun t => decide (0 < pnlV t))).length : ℚ) /
        ((l.filter (fun t => t.entryDate.toDate == d)).length : ℚ) := rfl

theorem length_filter_map_key {α β : Type} [DecidableEq α] (f : α → β)
    (key : β → α) (hkey : ∀ a, key (f a) = a) :
    ∀ (keys : List α), keys.Nodup → ∀ d ∈ keys,
      ((keys.map f).filter (fun e => key e == d)).length = 1 := by
  intro keys
  induction keys with
  | nil => intro _ d hd; simp at hd
  | cons a rest ih =>
    intro hnd d hd
    rw [List.map_cons, List.filter_cons]
    rcases List.mem_cons.mp hd with rfl | hdr
    · rw [if_pos (by rw [hkey]; exact beq_self_eq_true _)]
      have hrest : (rest.map f).filter (fun e => key e == d) = [] := by
        apply List.filter_eq_nil_iff.mpr
        intro e hemem
        obtain ⟨a', ha'mem, rfl⟩ := List.mem_map.mp hemem
        rw [hkey]
        intro hc
        exact (List.nodup_cons.mp hnd).1 ((beq_iff_eq.mp hc) ▸ ha'mem)
      rw [hrest]
      rfl
    · have hne : a ≠ d := fun hEq => (List.nodup_cons.mp hnd).1 (hEq ▸ hdr)
      rw [if_neg (by rw [hkey]; simp [hne])]
      exact ih (List.nodup_cons.mp hnd).2 d hdr

/-- C9: for every local calendar day of the requested month that has at
least one trade, `getCalendarData` returns an entry for that day whose
`tradeCount` counts all trades entered that day (open trades included),
whose `pnl` sums their P&L with unset P&L counting 0, and whose `winRate`
is wins divided by that day's trade count — and the returned list has
exactly one entry for the day. -/
theorem c9_calendar_day_grouping (rows : List Trade) (month : Nat) (year : Int)
    (d : LocalDate)
    (hday : ∃ t ∈ rows, t.entryDate.month = (month : Int) + 1 ∧
      t.entryDate.year = year ∧ t.entryDate.toDate = d) :
    (∃ e ∈ getCalendarData rows month year, e.date = d ∧
      e.tradeCount = (rows.filter (fun t => t.entryDate.toDate == d)).length ∧
      e.pnl = ((rows.filter (fun t => t.entryDate.toDate == d)).map pnlV).sum ∧
      e.winRate = (((rows.filter (fun t => t.entryDate.toDate == d)).filter
          (fun t => decide (0 < pnlV t))).length : ℚ) /
        ((rows.filter (fun t => t.entryDate.toDate == d)).length : ℚ)) ∧
    ((getCalendarData rows month year).filter (fun e => e.date == d)).length = 1 := by
  obtain ⟨t0, ht0r, ht0m, ht0y, ht0d⟩ := hday
  have hdm : d.month = (month : Int) + 1 := by rw [← ht0d]; exact ht0m
  have hdy : d.year = year := by rw [← ht0d]; exact ht0y
  have ht0M : t0 ∈ monthTrades rows month year := by
    rw [monthTrades, List.mem_filter]
    exact ⟨ht0r, by simp [ht0m, ht0y]⟩
  have hfeq : (monthTrades rows month year).filter (fun t => t.entryDate.toDate == d)
      = rows.filter (fun t => t.entryDate.toDate == d) := by
    rw [monthTrades, List.filter_filter]
    apply List.filter_congr
    intro t htr
    by_cases hdt : t.entryDate.toDate = d
    · have h1 : t.entryDate.month = (month : Int) + 1 := by
        rw [show t.entryDate.month = t.entryDate.toDate.month from rfl, hdt, hdm]
      have h2 : t.entryDate.year = year := by
        rw [show t.entryDate.year = t.entryDate.toDate.year from rfl, hdt, hdy]
      simp [h1, h2, hdt]
    · simp [hdt]
  have hdmem : d ∈ calendarDays (monthTrades rows month year) := by
    rw [calendarDays]
    exact (List.perm_insertionSort ldLe _).symm.subset
      ((mem_firstOccurs _ _).mpr (List.mem_map.mpr ⟨t0, ht0M, ht0d⟩))
  have ht0f : t0 ∈ (monthTrades rows month year).filter
      (fun t => t.entryDate.toDate == d) :=
    List.mem_filter.mpr ⟨ht0M, beq_iff_eq.mpr ht0d⟩
  have hlen : ((monthTrades rows month year).filter
      (fun t => t.entryDate.toDate == d)).length ≠ 0 := by
    intro hc
    rw [List.length_eq_zero] at hc
    rw [hc] at ht0f
    exact absurd ht0f (List.not_mem_nil t0)
  constructor
  · refine ⟨dayAgg (monthTrades rows month year) d, ?_, dayAgg_date _ _, ?_, ?_, ?_⟩
    · rw [getCalendarData]
      exact List.mem_map_of_mem _ hdmem
    · rw [dayAgg_tradeCount, hfeq]
    · rw [dayAgg_pnl, hfeq]
    · rw [dayAgg_winRate, if_neg hlen, hfeq]
  · rw [getCalendarData]
    refine length_filter_map_key (dayAgg (monthTrades rows month year))
      (fun e => e.date) (fun a => rfl) (calendarDays (monthTrades rows month year))
      ?_ d hdmem
    exact (List.perm_insertionSort ldLe _).nodup_iff.mpr
      (firstOccurs_nodup _)

/-- A closed GOOG trade entered Mar 5 2024 early in the day (pnl 10). -/
def tDayA : Trade :=
  { id := 1, symbol := "GOOG", side := "BUY", quantity := 5, entryPrice := 100,
    exitPrice := some 102, entryDate := ⟨2024, 3, 5, 1000⟩, exitDate := some ⟨2024, 3, 5, 2000⟩,
    pnl := some 10, commission := 0, strategy := none, notes := none, tags := [],
    screenshots := [], assetType := "STOCK", optionType := none, strikePrice := none,
    expirationDate := none }

/-- An open GOOG trade entered later the same local day (pnl unset). -/
def tDayB : Trade :=
  { id := 2, symbol := "GOOG", side := "BUY", quantity := 5, entryPrice := 101,
    exitPrice := none, entryDate := ⟨2024, 3, 5, 50000⟩, exitDate := none,
    pnl := none, commission := 0, strategy := none, notes := none, tags := [],
    screenshots := [], assetType := "STOCK", optionType := none, strikePrice := none,
    expirationDate := none }

/-- C9 (witness): two trades entered on the same local calendar day at
different timestamps aggregate into one entry with `tradeCount = 2`; the
open trade counts toward volume but contributes 0 to the day's P&L, so
`pnl = 10` and `winRate = 1/2`. -/
theorem c9_witness :
    tDayA.entryDate.msOfDay ≠ tDayB.entryDate.msOfDay ∧
      tDayA.entryDate.toDate = tDayB.entryDate.toDate ∧
      ∃ e ∈ getCalendarData [tDayA, tDayB] 2 2024,
        e.date = ⟨2024, 3, 5⟩ ∧ e.tradeCount = 2 ∧ e.pnl = 10 ∧ e.winRate = 1 / 2 := by
  refine ⟨by decide, rfl, ?_⟩
  obtain ⟨⟨e, hmem, hdate, hcount, hpnl, hwr⟩, _⟩ :=
    c9_calendar_day_grouping [tDayA, tDayB] 2 2024 ⟨2024, 3, 5⟩
      ⟨tDayA, by simp, by decide, by decide, rfl⟩
  refine ⟨e, hmem, hdate, ?_, ?_, ?_⟩
  · rw [hcount]
    rfl
  · rw [hpnl]
    show (10 : ℚ) + (0 + 0) = 10
    norm_num
  · rw [hwr]
    show ((1 : ℕ) : ℚ) / ((2 : ℕ) : ℚ) = 1 / 2
    norm_num
